import Mathlib

/-!
# cliopatra: command-line parameter declaration and matching

A shallow embedding of `cliopatra.go` and theorems about it.

Conventions of the embedding

* A Go `string` is a Lean `String`; `len(s)` is the UTF-8 byte length.
* A Go `error` is the type `error` below: `error.nil`, or `error.New msg` for
  `errors.New(msg)`.
* A method with a pointer receiver that writes to its receiver returns the
  updated record next to its Go results.
* A Go `panic` is `Except.error`.
* `map[string]CommandLineParameter` is either the nil map or a table with
  unique keys (`AList`); each key owns its parameter record.  The order in
  which `range` visits the keys is not fixed by Go, so every function that
  ranges over the map takes the visiting order as an argument.
* A Go slice is the list of its elements.  `SetPrefix` appends to one slice
  while it ranges over another, and the two may share a backing array; how they
  lie in memory is an argument of the call (`SliceLayout`).
* Output to the console and to the log is not modelled.
-/

namespace cliopatra

/-! ## Constants -/

def DefaultPrefix : String := "-"
def DefaultSuffix : String := ""
def ErrorArgumentMissing : String := "argument not set"
def ErrorFlagMissing : String := "the flag was not set"
def ErrorKeyLengthZero : String := "the key length must be greater than zero"
def ErrorNameLengthZero : String := "the parameter name length must be greater than zero"
def ErrorOptionMissing : String := "the option was not set"
def ErrorOptionValueMissing : String := "the option's value was not set"
def StringTruthyOne : String := "1"
def StringTruthyTrue : String := "true"
def StringTruthyYes : String := "yes"

/-! ## Go runtime and standard library -/

/-- The Go `error` interface, as far as this package uses it: `nil`, or the
value made by `errors.New`. -/
inductive error where
  | nil : error
  | New (msg : String) : error
  | NumError (Func : String) (Num : String) (Err : String) : error
  deriving DecidableEq, Repr

/-- A Go value that may be absent: a pointer that may be nil, or the result of
a map read in the comma-ok form. -/
abbrev Maybe (α : Type) : Type := Option α

/-- The text of `strconv.ErrSyntax`. -/
def ErrSyntax : String := "invalid syntax"

/-- The text of `strconv.ErrRange`. -/
def ErrRange : String := "value out of range"

/-- Go `len(s)` for a string: the number of bytes. -/
def len (s : String) : Nat := s.utf8ByteSize

/-- Go `unicode.IsSpace`: the characters with the Unicode White_Space property. -/
def isSpace (c : Char) : Bool :=
  let n := c.toNat
  n = 0x09 || n = 0x0A || n = 0x0B || n = 0x0C || n = 0x0D || n = 0x20 ||
  n = 0x85 || n = 0xA0 || n = 0x1680 || (0x2000 ≤ n && n ≤ 0x200A) ||
  n = 0x2028 || n = 0x2029 || n = 0x202F || n = 0x205F || n = 0x3000

/-- Go `strings.TrimSpace`: the string without its leading and trailing
white space. -/
def TrimSpace (s : String) : String :=
  ⟨((s.data.dropWhile isSpace).reverse.dropWhile isSpace).reverse⟩

/-- Go `unicode.ToLower` on one rune.  An ASCII rune is mapped by the explicit
test on `'A'..'Z'`; any other rune goes through the Unicode case tables of the
Go runtime, which are the argument `caseTable`. -/
def runeToLower (caseTable : Char → Char) (r : Char) : Char :=
  if r.toNat ≤ 0x7F then
    (if 'A'.toNat ≤ r.toNat ∧ r.toNat ≤ 'Z'.toNat then Char.ofNat (r.toNat + 32) else r)
  else caseTable r

/-- Go `strings.ToLower`: every rune mapped to its lower case. -/
def ToLower (caseTable : Char → Char) (s : String) : String :=
  ⟨s.data.map (runeToLower caseTable)⟩

/-- The digit loop of Go `strconv.ParseUint` in base 10; `n` is the number read
so far and `maxVal` the largest value of the result type.  A character that is
not a digit ends the loop with a syntax error; a digit that takes the number
above `maxVal` ends it at once with `maxVal` and a range error, whatever
follows it. -/
def parseUintDigits (maxVal : Nat) : List Char → Nat → Nat × Maybe String
  | [], n => (n, none)
  | c :: rest, n =>
    if c.isDigit then
      if maxVal < n * 10 + (c.toNat - '0'.toNat) then (maxVal, some ErrRange)
      else parseUintDigits maxVal rest (n * 10 + (c.toNat - '0'.toNat))
    else (0, some ErrSyntax)

/-- Go `strconv.Atoi` on a platform whose `int` has `intSize` bits (32 or 64).
The sign is picked off, the rest goes through the digit loop of `ParseUint`,
and the result is checked against the range of `int`, as `ParseInt` does; the
fast path of `Atoi` for short strings gives the same results. -/
def Atoi (intSize : Nat) (s : String) : Int × error :=
  let neg : Bool := s.data.head? = some '-'
  let body : List Char :=
    match s.data with
    | '+' :: r => r
    | '-' :: r => r
    | r => r
  if body = [] then
    (0, error.NumError "Atoi" s ErrSyntax)
  else
    let r := parseUintDigits (2 ^ intSize - 1) body 0
    if r.2 = some ErrSyntax then
      (0, error.NumError "Atoi" s ErrSyntax)
    else
      let un := r.1
      let cutoff := 2 ^ (intSize - 1)
      if neg = false ∧ cutoff ≤ un then
        ((cutoff : Int) - 1, error.NumError "Atoi" s ErrRange)
      else if neg = true ∧ cutoff < un then
        (-(cutoff : Int), error.NumError "Atoi" s ErrRange)
      else
        (if neg then -(un : Int) else (un : Int), error.nil)

/-- Go `strconv.ParseUint(s, 10, intSize)`: one or more decimal digits, no
sign. -/
def ParseUint (intSize : Nat) (s : String) : Nat × error :=
  if s.data = [] then
    (0, error.NumError "ParseUint" s ErrSyntax)
  else
    match parseUintDigits (2 ^ intSize - 1) s.data 0 with
    | (un, none) => (un, error.nil)
    | (un, some e) => (un, error.NumError "ParseUint" s e)

/-- Where the argument slice of a loop `for _, v := range list { p = append(p, v) }`
lies in memory, relative to the slice `p` that is appended to.  `room` is
`cap(p) - len(p)`: that many appends write into the backing array of `p` in
place, and the next one moves `p` to a new array.  `shift` is `some d` when
`list` shares that backing array and `list[d]` is the array element right
after the last element of `p`, so that the in-place append number `j` writes
over `list[d + j]`; it is `none` when no in-place append lands on an element of
`list` that is still to be read. -/
structure SliceLayout where
  room : Nat := 0
  shift : Maybe Nat := none
  deriving DecidableEq, Repr

/-- The loop `for _, v := range list { p = append(p, v) }` of Go: `k`
iterations remain, `i` is the index of the next one, `room` appends still fit
in place, `cur` holds the elements of `list` as they are in memory now, and
`acc` is `p`.  The result is `p` after the loop. -/
def appendRange (shift : Maybe Nat) :
    Nat → Nat → Nat → List String → List String → List String
  | 0, _, _, _, acc => acc
  | k + 1, i, room, cur, acc =>
    let v := cur.getD i ""
    match room with
    | 0 => appendRange shift k (i + 1) 0 cur (acc ++ [v])
    | r + 1 =>
      let cur1 : List String :=
        match shift with
        | some d => cur.set (d + i) v
        | none => cur
      appendRange shift k (i + 1) r cur1 (acc ++ [v])

/-! ## `truthyString` -/

/-- The function `truthyString` of the source. -/
def truthyString (caseTable : Char → Char) (s : String) : Bool :=
  let str := ToLower caseTable s
  if str = StringTruthyOne ∨ str = StringTruthyTrue ∨ str = StringTruthyYes then true
  else false

/-! ## Data model -/

/-- The record `Parameter` of the source. -/
structure Parameter where
  configDefault : String := ""
  configPreferred : Bool := false
  defaultSet : Bool := false
  Description : String := ""
  envDefault : String := ""
  help : String := ""
  Index : Int := 0
  IsRequired : Bool := false
  Key : String := ""
  MetaVar : String := ""
  Name : List String := []
  Position : Nat := 0
  Prefix : List String := []
  Suffix : List String := []
  Summery : String := ""
  value : String := ""
  valueRequired : Bool := false
  valueSet : Bool := false
  deriving DecidableEq, Repr

/-- The type `Argument` of the source: a `Parameter` and a default value. -/
structure Argument extends Parameter where
  defaultValue : String := ""
  deriving DecidableEq, Repr

/-- The type `Flag` of the source. -/
structure Flag extends Parameter where
  defaultValue : Bool := false
  flagValue : Bool := false
  deriving DecidableEq, Repr

/-- The type `Option` of the source. -/
structure Option extends Parameter where
  defaultValue : String := ""
  deriving DecidableEq, Repr

/-- The type `matchItem` of the source. -/
structure matchItem where
  Index : Int
  Matched : Bool
  Value : String
  deriving DecidableEq, Repr

/-! ## Argument -/

/-- The method `(*Argument).GetValue`: result, error, and the receiver after the call. -/
def Argument.GetValue (a : Argument) : (String × error) × Argument :=
  if a.valueSet = false then
    if a.defaultSet then
      if a.configPreferred ∧ len a.configDefault > 0 then
        let a1 := { a with value := a.configDefault }
        ((a1.value, error.nil), a1)
      else if len a.envDefault > 0 then
        let a1 := { a with value := a.envDefault }
        ((a1.value, error.nil), a1)
      else
        let a1 := { a with value := a.configDefault }
        ((a1.value, error.nil), a1)
    else
      (("", error.New ErrorArgumentMissing), a)
  else
    ((a.value, error.nil), a)

/-- The method `(*Argument).GetFlag`. -/
def Argument.GetFlag (caseTable : Char → Char) (a : Argument) : Bool × Argument :=
  let r := a.GetValue
  if r.1.2 ≠ error.nil then (false, r.2) else (truthyString caseTable r.1.1, r.2)

/-- The method `(*Argument).GetHelp`. -/
def Argument.GetHelp (a : Argument) : String := a.help

/-- The method `(*Argument).GetInt`. -/
def Argument.GetInt (intSize : Nat) (a : Argument) : Int × error :=
  Atoi intSize a.value

/-- The method `(*Argument).GetName`. -/
def Argument.GetName (_a : Argument) : List String := []

/-- The method `(*Argument).GetPrefix`. -/
def Argument.GetPrefix (a : Argument) : List String := a.Prefix

/-- The method `(*Argument).GetUint`. -/
def Argument.GetUint (intSize : Nat) (a : Argument) : Nat × error :=
  ParseUint intSize a.value

/-- The method `(*Argument).SetDefault`. -/
def Argument.SetDefault (a : Argument) (s : String) : error × Argument :=
  (error.nil, { a with value := s })

/-- The method `(*Argument).SetFlag`: it panics. -/
def Argument.SetFlag (_a : Argument) : Except String Argument :=
  .error "SetFlag use not appropriate for this parameter type"

/-- The method `(*Argument).SetKey`. -/
def Argument.SetKey (a : Argument) (s : String) : error × Argument :=
  if len s = 0 then (error.New ErrorKeyLengthZero, a)
  else (error.nil, { a with Key := s })

/-- The loop of `SetName`: true when some entry is empty after trimming. -/
def hasEmptyName : List String → Bool
  | [] => false
  | v :: rest => if len (TrimSpace v) = 0 then true else hasEmptyName rest

/-- The method `(*Argument).SetName`. -/
def Argument.SetName (a : Argument) (s : List String) : error × Argument :=
  if hasEmptyName s then (error.New ErrorNameLengthZero, a)
  else (error.nil, { a with Name := s })

/-- The method `(*Argument).SetPrefix`; `layout` tells where `list` lies in memory
relative to `a.Prefix`. -/
def Argument.SetPrefix (a : Argument) (list : List String) (appendToList : Bool)
    (layout : SliceLayout) : Argument :=
  if appendToList then
    { a with Prefix := appendRange layout.shift list.length 0 layout.room list a.Prefix }
  else { a with Prefix := list }

/-- The method `(*Argument).SetRequired`. -/
def Argument.SetRequired (a : Argument) (b : Bool) : Argument :=
  { a with IsRequired := b }

/-- The method `(*Argument).SetValue`. -/
def Argument.SetValue (a : Argument) (s : String) : Argument :=
  { a with value := s, valueSet := true }

/-! ## Flag -/

/-- The method `(*Flag).GetFlag`. -/
def Flag.GetFlag (f : Flag) : Bool := f.flagValue

/-- The method `(*Flag).GetHelp`. -/
def Flag.GetHelp (f : Flag) : String := f.help

/-- The method `(*Flag).GetInt`. -/
def Flag.GetInt (f : Flag) : Int × error :=
  if f.flagValue then (1, error.nil) else (0, error.nil)

/-- The method `(*Flag).GetName`. -/
def Flag.GetName (f : Flag) : List String := f.Name

/-- The method `(*Flag).GetPrefix`. -/
def Flag.GetPrefix (f : Flag) : List String := f.Prefix

/-- The method `(*Flag).GetUint`. -/
def Flag.GetUint (f : Flag) : Nat × error :=
  if f.flagValue then (1, error.nil) else (0, error.nil)

/-- The method `(*Flag).GetValue`. -/
def Flag.GetValue (f : Flag) : String × error :=
  if f.flagValue then ("true", error.nil) else ("false", error.nil)

/-- The method `(*Flag).SetDefault`. -/
def Flag.SetDefault (caseTable : Char → Char) (f : Flag) (s : String) : error × Flag :=
  (error.nil, { f with value := s, flagValue := truthyString caseTable s })

/-- The method `(*Flag).SetFlag`. -/
def Flag.SetFlag (f : Flag) : Flag :=
  { f with flagValue := true, value := "true", valueSet := true }

/-- The method `(*Flag).SetKey`. -/
def Flag.SetKey (f : Flag) (s : String) : error × Flag :=
  if len s = 0 then (error.New ErrorKeyLengthZero, f)
  else (error.nil, { f with Key := s })

/-- The method `(*Flag).SetName`. -/
def Flag.SetName (f : Flag) (s : List String) : error × Flag :=
  if hasEmptyName s then (error.New ErrorNameLengthZero, f)
  else (error.nil, { f with Name := s })

/-- The method `(*Flag).SetPrefix`; `layout` tells where `list` lies in memory
relative to `f.Prefix`. -/
def Flag.SetPrefix (f : Flag) (list : List String) (appendToList : Bool)
    (layout : SliceLayout) : Flag :=
  if appendToList then
    { f with Prefix := appendRange layout.shift list.length 0 layout.room list f.Prefix }
  else { f with Prefix := list }

/-- The method `(*Flag).SetRequired`. -/
def Flag.SetRequired (f : Flag) (b : Bool) : Flag :=
  { f with IsRequired := b }

/-- The method `(*Flag).SetValue`. -/
def Flag.SetValue (caseTable : Char → Char) (f : Flag) (s : String) : Flag :=
  { f with flagValue := truthyString caseTable s, value := s, valueSet := true }

/-! ## Option -/

/-- The method `(*Option).GetValue`: result, error, and the receiver after the call. -/
def Option.GetValue (o : Option) : (String × error) × Option :=
  if o.valueSet = false then
    if o.defaultSet then
      if o.configPreferred ∧ len o.configDefault > 0 then
        let o1 := { o with value := o.configDefault }
        ((o1.value, error.nil), o1)
      else if len o.envDefault > 0 then
        let o1 := { o with value := o.envDefault }
        ((o1.value, error.nil), o1)
      else
        let o1 := { o with value := o.configDefault }
        ((o1.value, error.nil), o1)
    else
      (("", error.New ErrorOptionMissing), o)
  else
    ((o.value, error.nil), o)

/-- The method `(*Option).GetFlag`. -/
def Option.GetFlag (caseTable : Char → Char) (o : Option) : Bool × Option :=
  let r := o.GetValue
  if r.1.2 ≠ error.nil then (false, r.2) else (truthyString caseTable r.1.1, r.2)

/-- The method `(*Option).GetHelp`. -/
def Option.GetHelp (o : Option) : String := o.help

/-- The method `(*Option).GetInt`. -/
def Option.GetInt (intSize : Nat) (o : Option) : Int × error :=
  Atoi intSize o.value

/-- The method `(*Option).GetName`. -/
def Option.GetName (o : Option) : List String := o.Name

/-- The method `(*Option).GetPrefix`. -/
def Option.GetPrefix (o : Option) : List String := o.Prefix

/-- The method `(*Option).GetUint`. -/
def Option.GetUint (intSize : Nat) (o : Option) : Nat × error :=
  ParseUint intSize o.value

/-- The method `(*Option).SetDefault`. -/
def Option.SetDefault (o : Option) (s : String) : error × Option :=
  (error.nil, { o with value := s })

/-- The method `(*Option).SetFlag`: it panics. -/
def Option.SetFlag (_o : Option) : Except String Option :=
  .error "SetFlag use not appropriate for this parameter type"

/-- The method `(*Option).SetKey`. -/
def Option.SetKey (o : Option) (s : String) : error × Option :=
  if len s = 0 then (error.New ErrorKeyLengthZero, o)
  else (error.nil, { o with Key := s })

/-- The method `(*Option).SetPrefix`; `layout` tells where `list` lies in memory
relative to `o.Prefix`. -/
def Option.SetPrefix (o : Option) (list : List String) (appendToList : Bool)
    (layout : SliceLayout) : Option :=
  if appendToList then
    { o with Prefix := appendRange layout.shift list.length 0 layout.room list o.Prefix }
  else { o with Prefix := list }

/-- The method `(*Option).SetName`. -/
def Option.SetName (o : Option) (s : List String) : error × Option :=
  if hasEmptyName s then (error.New ErrorNameLengthZero, o)
  else (error.nil, { o with Name := s })

/-- The method `(*Option).SetValue`. -/
def Option.SetValue (o : Option) (s : String) : Option :=
  { o with value := s, valueSet := true }

/-- The method `(*Option).SetRequired`. -/
def Option.SetRequired (o : Option) (b : Bool) : Option :=
  { o with IsRequired := b }

/-! ## The interface `CommandLineParameter` -/

/-- A value of the interface `CommandLineParameter`: a pointer to one of the
three types of this package that implement it. -/
inductive CommandLineParameter where
  | flag (f : Flag) : CommandLineParameter
  | argument (a : Argument) : CommandLineParameter
  | option (o : Option) : CommandLineParameter
  deriving DecidableEq, Repr

/-- Interface call `pv.GetName()`. -/
def CommandLineParameter.GetName : CommandLineParameter → List String
  | .flag f => f.GetName
  | .argument a => a.GetName
  | .option o => o.GetName

/-- Interface call `pv.GetPrefix()`. -/
def CommandLineParameter.GetPrefix : CommandLineParameter → List String
  | .flag f => f.GetPrefix
  | .argument a => a.GetPrefix
  | .option o => o.GetPrefix

/-- Interface call `pv.SetFlag()`; a panic is `Except.error`. -/
def CommandLineParameter.SetFlag : CommandLineParameter → Except String CommandLineParameter
  | .flag f => .ok (.flag f.SetFlag)
  | .argument a => a.SetFlag.map .argument
  | .option o => o.SetFlag.map .option

/-- Interface call `pv.SetValue(s)`. -/
def CommandLineParameter.SetValue (caseTable : Char → Char) (s : String) :
    CommandLineParameter → CommandLineParameter
  | .flag f => .flag (f.SetValue caseTable s)
  | .argument a => .argument (a.SetValue s)
  | .option o => .option (o.SetValue s)

/-- Interface call `pv.GetFlag()`: the result and the parameter after the call. -/
def CommandLineParameter.GetFlag (caseTable : Char → Char) :
    CommandLineParameter → Bool × CommandLineParameter
  | .flag f => (f.GetFlag, .flag f)
  | .argument a => ((a.GetFlag caseTable).1, .argument (a.GetFlag caseTable).2)
  | .option o => ((o.GetFlag caseTable).1, .option (o.GetFlag caseTable).2)

/-- Interface call `pv.GetValue()`: the results and the parameter after the call. -/
def CommandLineParameter.GetValue :
    CommandLineParameter → (String × error) × CommandLineParameter
  | .flag f => (f.GetValue, .flag f)
  | .argument a => (a.GetValue.1, .argument a.GetValue.2)
  | .option o => (o.GetValue.1, .option o.GetValue.2)

/-- The shared record of a parameter, whatever its kind. -/
def CommandLineParameter.toParameter : CommandLineParameter → Parameter
  | .flag f => f.toParameter
  | .argument a => a.toParameter
  | .option o => o.toParameter

/-! ## Go maps -/

/-- A value of type `map[string]CommandLineParameter`: the nil map, or a table
of entries with unique keys. -/
inductive GoMap where
  | nil : GoMap
  | table (t : AList (fun _ : String => CommandLineParameter)) : GoMap

/-- The keys of a map. -/
def GoMap.keys : GoMap → List String
  | .nil => []
  | .table t => t.keys

/-- Reading `m[k]` with the comma-ok form. -/
def GoMap.lookup (k : String) : GoMap → Maybe CommandLineParameter
  | .nil => none
  | .table t => t.lookup k

/-- The map after a write through the pointer stored under `k`: the record
under `k` becomes `v`, the keys stay as they are. -/
def GoMap.replace (k : String) (v : CommandLineParameter) : GoMap → GoMap
  | .nil => .nil
  | .table t => .table (t.replace k v)

/-- The assignment `m[k] = v`; on the nil map it panics. -/
def GoMap.store (k : String) (v : CommandLineParameter) : GoMap → Except String GoMap
  | .nil => .error "assignment to entry in nil map"
  | .table t => .ok (.table (t.insert k v))

/-- The list `order` is an order in which `range` may visit the keys of `m`:
each key once. -/
def GoMap.IsRangeOrder (m : GoMap) (order : List String) : Prop :=
  order.Perm m.keys

/-! ## CommandSet -/

/-- The type `CommandSet` of the source. -/
structure CommandSet where
  AllowPosixGroups : Bool := false
  Description : String := ""
  Help : String := ""
  IsGNU : Bool := false
  IsMultics : Bool := false
  IsPosix : Bool := false
  IsRuneImp : Bool := false
  Name : String := ""
  Parameters : GoMap := .nil
  Prefix : List String := []
  Suffix : List String := []
  Summery : String := ""

/-- The loop `for _, p := range pv.GetPrefix()` of `MatchCommandLine` for one
name `v`: true when it reaches the branch `cl.Value == p+v`. -/
def matchPrefixes (clValue v : String) : List String → Bool
  | [] => false
  | p :: rest => if clValue = p ++ v then true else matchPrefixes clValue v rest

/-- The loop `for _, v := range pv.GetName()` of `MatchCommandLine`. -/
def matchNames (clValue : String) (prefixes : List String) : List String → Bool
  | [] => false
  | v :: rest => if matchPrefixes clValue v prefixes then true else matchNames clValue prefixes rest

/-- The type switch of `MatchCommandLine`, run when `cl.Value == p+v`. -/
def dispatchMatch (caseTable : Char → Char) (clValue : String) (pv : CommandLineParameter) :
    Except String CommandLineParameter :=
  match pv with
  | .flag _ => pv.SetFlag
  | .argument _ => .ok (pv.SetValue caseTable clValue)
  | .option _ => .ok (pv.SetValue caseTable clValue)

/-- The loop `for pk, pv := range cs.Parameters` of `MatchCommandLine` for one
token, the keys visited in the given order: whether the token matched, and the
map after the loop. -/
def matchParameters (caseTable : Char → Char) (clValue : String) :
    List String → GoMap → Except String (Bool × GoMap)
  | [], m => .ok (false, m)
  | pk :: rest, m =>
    match m.lookup pk with
    | none => matchParameters caseTable clValue rest m
    | some pv =>
      if matchNames clValue pv.GetPrefix pv.GetName then
        match dispatchMatch caseTable clValue pv with
        | .error e => .error e
        | .ok pv1 => .ok (true, m.replace pk pv1)
      else matchParameters caseTable clValue rest m

/-- The loop `for i, cl := range args` of `MatchCommandLine`, from index `i`
on; `order j` is the order in which the map is visited for the token at
index `j`. -/
def matchArgs (caseTable : Char → Char) (order : Nat → List String) :
    Nat → List matchItem → GoMap → Except String (List matchItem × GoMap)
  | _, [], m => .ok ([], m)
  | i, cl :: rest, m =>
    match matchParameters caseTable cl.Value (order i) m with
    | .error e => .error e
    | .ok (matched, m1) =>
      match matchArgs caseTable order (i + 1) rest m1 with
      | .error e => .error e
      | .ok (rest1, m2) =>
        .ok ((if matched then { cl with Matched := true } else cl) :: rest1, m2)

/-- The method `CommandSet.MatchCommandLine`: the returned boolean, the slice
`args` after the call and the command set after the call. -/
def CommandSet.MatchCommandLine (caseTable : Char → Char) (order : Nat → List String)
    (cs : CommandSet) (args : List matchItem) :
    Except String (Bool × List matchItem × CommandSet) :=
  match matchArgs caseTable order 0 args cs.Parameters with
  | .error e => .error e
  | .ok (args1, m) => .ok (false, args1, { cs with Parameters := m })

/-- The method `CommandSet.AddFlag`; `pfx` is the argument `prefix`, a pointer
that may be nil. -/
def CommandSet.AddFlag (cs : CommandSet) (key : String) (name : List String)
    (pfx : Maybe (List String)) (help : String) : Except String CommandSet :=
  let p : List String :=
    match pfx with
    | some l => if l.length > 0 then l else cs.Prefix
    | none => cs.Prefix
  let flag : Flag := { help := help, Name := name, Prefix := p, defaultValue := false }
  match cs.Parameters.store key (.flag flag) with
  | .error e => .error e
  | .ok m => .ok { cs with Parameters := m }

/-! ## The root instance -/

/-- The type `Cliopatra` of the source.  The embedded `*CommandSet` points to
the copy of its argument that `New` made, to which nothing else refers; it is
held here by value. -/
structure Cliopatra where
  CommandSet : CommandSet := {}
  CliApp : String := ""

/-- The package-level variables `cliopatraInstance` and `matchList`, and the
`Cliopatra` objects allocated so far.  A pointer `*Cliopatra` is an index into
`heap`; the nil pointer is `none`. -/
structure Package where
  cliopatraInstance : Maybe Nat := none
  matchList : List matchItem := []
  heap : List Cliopatra := []

/-- The function `New`: the returned pointer and error, and the package state
after the call.  The statement `cliopatraInstance := &Cliopatra{...}` of the
source declares a local variable of that name, so the new object is allocated
and returned while the package-level variable keeps its value. -/
def New (cs : CommandSet) (pkg : Package) : (Nat × error) × Package :=
  match pkg.cliopatraInstance with
  | some p => ((p, error.nil), pkg)
  | none =>
    let cs1 : CommandSet := { cs with Parameters := .table ∅ }
    let cs2 : CommandSet :=
      if cs1.Prefix.length = 0 ∧ len DefaultPrefix > 0 then
        { cs1 with Prefix := [DefaultPrefix] }
      else cs1
    let cs3 : CommandSet :=
      if cs2.Suffix.length = 0 ∧ len DefaultSuffix > 0 then
        { cs2 with Suffix := [DefaultSuffix] }
      else cs2
    let local_cliopatraInstance : Nat := pkg.heap.length
    ((local_cliopatraInstance, error.nil),
      { pkg with heap := pkg.heap ++ [{ CommandSet := cs3 }] })

/-- The call `c.AddFlag(key, name, prefix, help)` on the object at the address
`c`; a nil or dangling pointer panics. -/
def Package.AddFlag (pkg : Package) (c : Nat) (key : String) (name : List String)
    (pfx : Maybe (List String)) (help : String) : Except String Package :=
  match pkg.heap.get? c with
  | none => .error "invalid memory address or nil pointer dereference"
  | some obj =>
    match obj.CommandSet.AddFlag key name pfx help with
    | .error e => .error e
    | .ok cs1 => .ok { pkg with heap := pkg.heap.set c { obj with CommandSet := cs1 } }

/-- Reading `c.Parameters[key]` on the object at the address `c`. -/
def Package.parameter (pkg : Package) (c : Nat) (key : String) : Maybe CommandLineParameter :=
  match pkg.heap.get? c with
  | none => none
  | some obj => obj.CommandSet.Parameters.lookup key

/-! ## Vocabulary of the statements -/

/-- The token is one of the spellings `prefix + name` of the parameter, the
name taken from `GetName()` and the prefix from `GetPrefix()`. -/
def CommandLineParameter.Spells (pv : CommandLineParameter) (tok : String) : Prop :=
  ∃ n ∈ pv.GetName, ∃ p ∈ pv.GetPrefix, tok = p ++ n

/-- Some parameter registered in the map spells the token. -/
def GoMap.Recognizes (m : GoMap) (tok : String) : Prop :=
  ∃ k pv, m.lookup k = some pv ∧ pv.Spells tok

/-- The parameter after the type switch of `MatchCommandLine` has run on it. -/
def applyMatch (clValue : String) : CommandLineParameter → CommandLineParameter
  | .flag f => .flag f.SetFlag
  | .argument a => .argument (a.SetValue clValue)
  | .option o => .option (o.SetValue clValue)

/-- A run of the token loop of `MatchCommandLine` from index `i`: the tokens
still to scan, the map before, the tokens after and the map after.  A token
that no visited parameter spells is left as it is (`miss`); otherwise one
parameter that spells it is updated and the token is marked (`hit`). -/
inductive MatchRun (order : Nat → List String) :
    Nat → List matchItem → GoMap → List matchItem → GoMap → Prop where
  | done (i : Nat) (m : GoMap) : MatchRun order i [] m [] m
  | miss {i : Nat} {cl : matchItem} {rest out : List matchItem} {m m1 : GoMap} :
      (∀ pk ∈ order i, ∀ pv, m.lookup pk = some pv → ¬ pv.Spells cl.Value) →
      MatchRun order (i + 1) rest m out m1 →
      MatchRun order i (cl :: rest) m (cl :: out) m1
  | hit {i : Nat} {cl : matchItem} {rest out : List matchItem} {m m1 : GoMap}
      {pk : String} {pv : CommandLineParameter} :
      pk ∈ order i → m.lookup pk = some pv → pv.Spells cl.Value →
      MatchRun order (i + 1) rest
        (m.replace pk (applyMatch cl.Value pv)) out m1 →
      MatchRun order i (cl :: rest) m ({ cl with Matched := true } :: out) m1

/-! ## Examples -/

/-- A command set with one flag `-v` under the key `verbose`. -/
def exampleVerboseSet : CommandSet :=
  { Parameters := .table (AList.insert "verbose"
      (.flag { Key := "verbose", Name := ["v"], Prefix := ["-"] }) ∅) }

/-- The tokens `-v file.txt`, as `Run` builds them. -/
def exampleVerboseArgs : List matchItem :=
  [⟨1, false, "-v"⟩, ⟨2, false, "file.txt"⟩]

/-- A command set with one flag under the key `verbose`, with the names `v`,
`verbose` and the prefixes `-`, `--`. -/
def exampleNamesSet : CommandSet :=
  { Parameters := .table (AList.insert "verbose"
      (.flag { Key := "verbose", Name := ["v", "verbose"], Prefix := ["-", "--"] }) ∅) }

/-- The tokens after `MatchCommandLine` with their marks; empty after a panic. -/
def marksOf : Except String (Bool × List matchItem × CommandSet) → List (String × Bool)
  | .ok (_, out, _) => out.map (fun o => (o.Value, o.Matched))
  | .error _ => []

/-- The command set after `MatchCommandLine`; the given one after a panic. -/
def setAfter (cs : CommandSet) : Except String (Bool × List matchItem × CommandSet) → CommandSet
  | .ok (_, _, cs1) => cs1
  | .error _ => cs

/-- The option `out` of the scenario: names `o`, `output`, prefixes `-`, `--`. -/
def exampleOutOption : Option :=
  { Key := "out", Name := ["o", "output"], Prefix := ["-", "--"] }

/-- The argument counterpart of `exampleOutOption`. -/
def exampleOutArgument : Argument :=
  { Key := "out", Name := ["o", "output"], Prefix := ["-", "--"] }

/-- A command set holding one parameter under the key `out`. -/
def exampleOutSet (pv : CommandLineParameter) : CommandSet :=
  { Parameters := .table (AList.insert "out" pv ∅) }

/-- The scenario of the spec: register `pv` under `out`, match the tokens
`--unrelated`, then call `GetValue()` on the parameter under `out`. -/
def scenarioGetValue (pv : CommandLineParameter) : String × error :=
  let cs1 := setAfter (exampleOutSet pv)
    ((exampleOutSet pv).MatchCommandLine id (fun _ => ["out"]) [⟨1, false, "--unrelated"⟩])
  match cs1.Parameters.lookup "out" with
  | some pv1 => pv1.GetValue.1
  | none => ("", error.nil)

/-- An option with an environment default `from-env` and a config default
`from-config` registered, no value set. -/
def exampleDefaultsOption : Option :=
  { defaultSet := true, envDefault := "from-env", configDefault := "from-config" }

/-- The argument counterpart of `exampleDefaultsOption`. -/
def exampleDefaultsArgument : Argument :=
  { defaultSet := true, envDefault := "from-env", configDefault := "from-config" }

/-- The characters of the three truthy literals. -/
def truthyLetters : List Char := ['1', 't', 'r', 'u', 'e', 'y', 's']

/-- The string `s` equals `lit` ignoring the case of the letters `A` to `Z`:
the same length, and at each position the same character up to case. -/
def EqualsIgnoringCase (s lit : String) : Prop :=
  List.Forall₂ (fun a b => a.toLower = b.toLower) s.data lit.data

/-- The case tables of the Go runtime map no rune outside ASCII to a character
of the truthy literals (in Unicode only U+0130 and U+212A have an ASCII lower
case, `i` and `k`). -/
def CaseTableAvoidsTruthyLetters (caseTable : Char → Char) : Prop :=
  ∀ c : Char, 0x7F < c.toNat → caseTable c ∉ truthyLetters

/-- The spellings of a lower-case literal in every mix of upper and lower case. -/
def caseVariants : List Char → List (List Char)
  | [] => [[]]
  | d :: ds =>
    (caseVariants ds).flatMap
      (fun r => if d.toUpper = d then [d :: r] else [d :: r, d.toUpper :: r])

/-- The twenty-five strings that `truthyString` accepts. -/
def truthySpellings : List String :=
  ["1", "true", "True", "tRue", "TRue", "trUe", "TrUe", "tRUe", "TRUe", "truE", "TruE",
   "tRuE", "TRuE", "trUE", "TrUE", "tRUE", "TRUE", "yes", "Yes", "yEs", "YEs", "yeS",
   "YeS", "yES", "YES"]

/-- A case table with the two entries of Unicode whose lower case is ASCII:
U+0130 goes to `i` and U+212A (the Kelvin sign) to `k`. -/
def exampleCaseTable (c : Char) : Char :=
  if c.toNat = 0x130 then 'i' else if c.toNat = 0x212A then 'k' else c

/-- An option whose environment default `42` is registered, no value set. -/
def exampleEnvOption : Option :=
  { defaultSet := true, envDefault := "42" }

/-- The argument counterpart of `exampleEnvOption`. -/
def exampleEnvArgument : Argument :=
  { defaultSet := true, envDefault := "42" }

/-- The option after the tokens have been scanned in turn: each token that is
one of its spellings becomes its value. -/
def scanOption (o : Option) (toks : List String) : Option :=
  toks.foldl (fun o1 t => if matchNames t o1.GetPrefix o1.GetName then o1.SetValue t else o1) o

/-- The package state after a call that did not panic; the given one after a
panic. -/
def pkgAfter (pkg : Package) : Except String Package → Package
  | .ok p => p
  | .error _ => pkg

/-- The option `out` with the names `o`, `output` and the prefixes `-`, `--`,
alone in a command set. -/
def exampleOptionSet : CommandSet := exampleOutSet (.option exampleOutOption)

/-- The argument `out`, alone in a command set. -/
def exampleArgumentSet : CommandSet := exampleOutSet (.argument exampleOutArgument)

/-- The first call `New(CommandSet{})` of a fresh process. -/
def exampleFirstNew : (Nat × error) × Package := New {} {}

/-- The package state after `AddFlag("verbose", ["v"], nil, "be verbose")` on
the instance that the first call of `New` returned. -/
def exampleRegistered : Package :=
  pkgAfter exampleFirstNew.2
    (exampleFirstNew.2.AddFlag exampleFirstNew.1.1 "verbose" ["v"] none "be verbose")

/-- The second call `New(CommandSet{})`, after the registration. -/
def exampleSecondNew : (Nat × error) × Package := New {} exampleRegistered

/-- A command set as `New` leaves it: an allocated, empty parameter map and the
default prefix. -/
def exampleEmptySet : CommandSet :=
  { Parameters := .table ∅, Prefix := ["-"] }

/-- The package state after `AddFlag("blank", [" "], nil, "")` on the instance
that the first call of `New` returned. -/
def exampleBlankName : Package :=
  pkgAfter exampleFirstNew.2 (exampleFirstNew.2.AddFlag exampleFirstNew.1.1 "blank" [" "] none "")

/-- The package state after `AddFlag("", ["v"], nil, "")` on the instance that
the first call of `New` returned. -/
def exampleEmptyKey : Package :=
  pkgAfter exampleFirstNew.2 (exampleFirstNew.2.AddFlag exampleFirstNew.1.1 "" ["v"] none "")

/-- A call of one of the interface operations that do not panic on an Option or
an Argument, with its arguments. -/
inductive Operation where
  | SetDefault (s : String) : Operation
  | SetKey (s : String) : Operation
  | SetName (names : List String) : Operation
  | SetPrefix (list : List String) (appendToList : Bool) (layout : SliceLayout) : Operation
  | SetRequired (b : Bool) : Operation
  | SetValue (s : String) : Operation
  | GetValue : Operation
  | GetFlag : Operation
  | GetInt : Operation
  | GetUint : Operation
  deriving DecidableEq, Repr

/-- The Option after one call; `GetInt` and `GetUint` only read it. -/
def Option.apply (caseTable : Char → Char) (o : Option) : Operation → Option
  | .SetDefault s => (o.SetDefault s).2
  | .SetKey s => (o.SetKey s).2
  | .SetName names => (o.SetName names).2
  | .SetPrefix list appendToList layout => o.SetPrefix list appendToList layout
  | .SetRequired b => o.SetRequired b
  | .SetValue s => o.SetValue s
  | .GetValue => o.GetValue.2
  | .GetFlag => (o.GetFlag caseTable).2
  | .GetInt => o
  | .GetUint => o

/-- The Argument after one call; `GetInt` and `GetUint` only read it. -/
def Argument.apply (caseTable : Char → Char) (a : Argument) : Operation → Argument
  | .SetDefault s => (a.SetDefault s).2
  | .SetKey s => (a.SetKey s).2
  | .SetName names => (a.SetName names).2
  | .SetPrefix list appendToList layout => a.SetPrefix list appendToList layout
  | .SetRequired b => a.SetRequired b
  | .SetValue s => a.SetValue s
  | .GetValue => a.GetValue.2
  | .GetFlag => (a.GetFlag caseTable).2
  | .GetInt => a
  | .GetUint => a

/-- The Option after a sequence of calls, the earliest first. -/
def Option.run (caseTable : Char → Char) (o : Option) (ops : List Operation) : Option :=
  ops.foldl (Option.apply caseTable) o

/-- The Argument after a sequence of calls, the earliest first. -/
def Argument.run (caseTable : Char → Char) (a : Argument) (ops : List Operation) : Argument :=
  ops.foldl (Argument.apply caseTable) a

/-- The call is a `SetValue`. -/
def Operation.isSetValue : Operation → Bool
  | .SetValue _ => true
  | _ => false

/-- The string that a `SetValue` or `SetDefault` call passes; none for the
other calls. -/
def Operation.written : Operation → Maybe String
  | .SetValue s => some s
  | .SetDefault s => some s
  | _ => none

/-- Some call of the sequence is a `SetValue`. -/
def calledSetValue (ops : List Operation) : Bool := ops.any Operation.isSetValue

/-- The argument of the most recent `SetValue` or `SetDefault` call of the
sequence; none when there is no such call. -/
def lastWritten (ops : List Operation) : Maybe String :=
  (ops.filterMap Operation.written).getLast?

/-- A flag after `f.SetPrefix(all[:2], false)` with `all := []string{"-", "--", "+"}`:
its prefixes are `-`, `--`, in an array with room for one more element. -/
def exampleSharedFlag : Flag := ({} : Flag).SetPrefix ["-", "--"] false {}

/-- The option counterpart of `exampleSharedFlag`. -/
def exampleSharedOption : Option := ({} : Option).SetPrefix ["-", "--"] false {}

/-- The argument counterpart of `exampleSharedFlag`. -/
def exampleSharedArgument : Argument := ({} : Argument).SetPrefix ["-", "--"] false {}

/-- The layout of the call `f.SetPrefix(all[1:3], true)` that follows: one
append fits in place, and element 1 of the argument, `+`, is the array element
right after the last prefix. -/
def exampleSharedLayout : SliceLayout := { room := 1, shift := some 1 }

/-! ## Lemmas: strings -/

theorem utf8ByteSize_go_eq_zero (l : List Char) :
    String.utf8ByteSize.go l = 0 ↔ l = [] := by
  cases l with
  | nil => simp [String.utf8ByteSize.go]
  | cons c cs =>
    have := Char.utf8Size_pos c
    simp [String.utf8ByteSize.go]
    omega

theorem len_eq_zero_iff (s : String) : len s = 0 ↔ s = "" := by
  obtain ⟨l⟩ := s
  unfold len String.utf8ByteSize
  rw [utf8ByteSize_go_eq_zero]
  constructor
  · rintro rfl; rfl
  · intro h; exact congrArg String.data h

/-! ## Lemmas: maps -/

theorem dlookup_kreplace (k k1 : String) (v : CommandLineParameter)
    (l : List (Sigma (fun _ : String => CommandLineParameter))) :
    List.dlookup k1 (List.kreplace k v l)
      = if k1 = k then (List.dlookup k l).map (fun _ => v) else List.dlookup k1 l := by
  induction l with
  | nil => simp [List.kreplace]
  | cons hd tl ih =>
    obtain ⟨a, b⟩ := hd
    unfold List.kreplace at ih ⊢
    by_cases hak : k = a
    · subst hak
      rw [List.lookmap_cons_some (b := ⟨k, v⟩) _ _ (by simp)]
      by_cases h1 : k1 = k
      · subst h1; simp
      · simp [h1, List.dlookup_cons_ne]
    · rw [List.lookmap_cons_none _ _ (by simp [hak])]
      by_cases h1 : k1 = a
      · subst h1
        have : k1 ≠ k := fun h => hak h.symm
        simp [this]
      · have e1 := fun l => List.dlookup_cons_ne l
          (⟨a, b⟩ : Sigma (fun _ : String => CommandLineParameter)) h1
        have e3 := List.dlookup_cons_ne tl
          (⟨a, b⟩ : Sigma (fun _ : String => CommandLineParameter)) hak
        rw [e1, e1, e3]
        exact ih


theorem GoMap.lookup_replace (m : GoMap) (k k1 : String) (v : CommandLineParameter) :
    (m.replace k v).lookup k1
      = if k1 = k then (m.lookup k).map (fun _ => v) else m.lookup k1 := by
  cases m with
  | nil => simp [GoMap.replace, GoMap.lookup]
  | table t => exact dlookup_kreplace k k1 v t.entries

theorem GoMap.keys_replace (m : GoMap) (k : String) (v : CommandLineParameter) :
    (m.replace k v).keys = m.keys := by
  cases m with
  | nil => rfl
  | table t => exact AList.keys_replace k v t

theorem GoMap.mem_keys_of_lookup {m : GoMap} {k : String} {pv : CommandLineParameter}
    (h : m.lookup k = some pv) : k ∈ m.keys := by
  cases m with
  | nil => simp [GoMap.lookup] at h
  | table t =>
    have : (t.lookup k).isSome := by
      simp only [GoMap.lookup] at h
      rw [h]; rfl
    exact AList.mem_keys.1 (AList.lookup_isSome.1 this)

/-! ## Lemmas: the scan of one parameter -/

theorem matchPrefixes_iff (tok v : String) (ps : List String) :
    matchPrefixes tok v ps = true ↔ ∃ p ∈ ps, tok = p ++ v := by
  induction ps with
  | nil => simp [matchPrefixes]
  | cons p rest ih =>
    by_cases h : tok = p ++ v
    · simp [matchPrefixes, h]
    · simp [matchPrefixes, h, ih]

theorem matchNames_iff (tok : String) (ps ns : List String) :
    matchNames tok ps ns = true ↔ ∃ n ∈ ns, ∃ p ∈ ps, tok = p ++ n := by
  induction ns with
  | nil => simp [matchNames]
  | cons n rest ih =>
    by_cases h : matchPrefixes tok n ps = true
    · simp only [matchNames, h, if_true, true_iff]
      exact ⟨n, List.mem_cons_self _ _, (matchPrefixes_iff tok n ps).1 h⟩
    · have h1 : ¬ ∃ p ∈ ps, tok = p ++ n := fun hx => h ((matchPrefixes_iff tok n ps).2 hx)
      simp only [matchNames, h, if_false, ih, Bool.false_eq_true]
      constructor
      · rintro ⟨x, hx, hp⟩
        exact ⟨x, List.mem_cons_of_mem _ hx, hp⟩
      · rintro ⟨x, hx, hp⟩
        rcases List.mem_cons.1 hx with rfl | hx
        · exact absurd hp h1
        · exact ⟨x, hx, hp⟩

theorem matchNames_eq_true_iff_spells (tok : String) (pv : CommandLineParameter) :
    matchNames tok pv.GetPrefix pv.GetName = true ↔ pv.Spells tok :=
  matchNames_iff tok pv.GetPrefix pv.GetName

theorem dispatchMatch_eq (caseTable : Char → Char) (tok : String) (pv : CommandLineParameter) :
    dispatchMatch caseTable tok pv = .ok (applyMatch tok pv) := by
  cases pv <;> rfl

theorem applyMatch_GetName (tok : String) (pv : CommandLineParameter) :
    (applyMatch tok pv).GetName = pv.GetName := by
  cases pv <;> rfl

theorem applyMatch_GetPrefix (tok : String) (pv : CommandLineParameter) :
    (applyMatch tok pv).GetPrefix = pv.GetPrefix := by
  cases pv <;> rfl

theorem applyMatch_spells (tok t : String) (pv : CommandLineParameter) :
    (applyMatch tok pv).Spells t ↔ pv.Spells t := by
  unfold CommandLineParameter.Spells
  rw [applyMatch_GetName, applyMatch_GetPrefix]

/-! ## Lemmas: the loops of `MatchCommandLine` -/

theorem matchParameters_spec (caseTable : Char → Char) (tok : String) (m : GoMap)
    (order : List String) :
    (matchParameters caseTable tok order m = .ok (false, m) ∧
      ∀ pk ∈ order, ∀ pv, m.lookup pk = some pv → ¬ pv.Spells tok) ∨
    (∃ pk ∈ order, ∃ pv, m.lookup pk = some pv ∧ pv.Spells tok ∧
      matchParameters caseTable tok order m
        = .ok (true, m.replace pk (applyMatch tok pv))) := by
  induction order with
  | nil => left; simp [matchParameters]
  | cons pk rest ih =>
    cases hl : m.lookup pk with
    | none =>
      have e : matchParameters caseTable tok (pk :: rest) m
          = matchParameters caseTable tok rest m := by
        simp only [matchParameters, hl]
      rw [e]
      rcases ih with ⟨h1, h2⟩ | ⟨k, hk, pv, h1, h2, h3⟩
      · left
        refine ⟨h1, ?_⟩
        intro k hk pv hpv
        rcases List.mem_cons.1 hk with rfl | hk
        · rw [hl] at hpv; cases hpv
        · exact h2 k hk pv hpv
      · right
        exact ⟨k, List.mem_cons_of_mem _ hk, pv, h1, h2, h3⟩
    | some pv =>
      by_cases hm : matchNames tok pv.GetPrefix pv.GetName = true
      · right
        refine ⟨pk, List.mem_cons_self _ _, pv, hl, (matchNames_eq_true_iff_spells tok pv).1 hm, ?_⟩
        simp only [matchParameters, hl, hm, if_true, dispatchMatch_eq]
      · have e : matchParameters caseTable tok (pk :: rest) m
            = matchParameters caseTable tok rest m := by
          simp only [matchParameters, hl, hm, if_false, Bool.false_eq_true]
        have hns : ¬ pv.Spells tok := fun hx => hm ((matchNames_eq_true_iff_spells tok pv).2 hx)
        rw [e]
        rcases ih with ⟨h1, h2⟩ | ⟨k, hk, pv1, h1, h2, h3⟩
        · left
          refine ⟨h1, ?_⟩
          intro k hk pv1 hpv
          rcases List.mem_cons.1 hk with rfl | hk
          · rw [hl] at hpv; cases hpv; exact hns
          · exact h2 k hk pv1 hpv
        · right
          exact ⟨k, List.mem_cons_of_mem _ hk, pv1, h1, h2, h3⟩

theorem matchArgs_run (caseTable : Char → Char) (order : Nat → List String)
    (args : List matchItem) :
    ∀ (i : Nat) (m : GoMap), ∃ out m1,
      matchArgs caseTable order i args m = .ok (out, m1) ∧
      MatchRun order i args m out m1 := by
  induction args with
  | nil => intro i m; exact ⟨[], m, rfl, MatchRun.done i m⟩
  | cons cl rest ih =>
    intro i m
    rcases matchParameters_spec caseTable cl.Value m (order i) with
      ⟨h1, h2⟩ | ⟨pk, hpk, pv, h1, h2, h3⟩
    · obtain ⟨out, m1, e, r⟩ := ih (i + 1) m
      refine ⟨cl :: out, m1, ?_, MatchRun.miss h2 r⟩
      simp [matchArgs, h1, e]
    · obtain ⟨out, m1, e, r⟩ := ih (i + 1) (m.replace pk (applyMatch cl.Value pv))
      refine ⟨{ cl with Matched := true } :: out, m1, ?_, MatchRun.hit hpk h1 h2 r⟩
      simp [matchArgs, h3, e]

theorem GoMap.lookup_replace_self {m : GoMap} {pk : String} {pv : CommandLineParameter}
    (h : m.lookup pk = some pv) (v : CommandLineParameter) :
    (m.replace pk v).lookup pk = some v := by
  rw [GoMap.lookup_replace, if_pos rfl, h]; rfl

theorem GoMap.lookup_replace_ne (m : GoMap) {pk k : String} (h : k ≠ pk)
    (v : CommandLineParameter) : (m.replace pk v).lookup k = m.lookup k := by
  rw [GoMap.lookup_replace, if_neg h]

/-- After a hit every key holds a parameter with the spellings it had before. -/
theorem lookup_after_hit {m : GoMap} {pk : String} {pv : CommandLineParameter}
    (h : m.lookup pk = some pv) (tok : String) {k : String} {pv1 : CommandLineParameter}
    (h1 : (m.replace pk (applyMatch tok pv)).lookup k = some pv1) :
    ∃ pv0, m.lookup k = some pv0 ∧ ∀ t, pv1.Spells t ↔ pv0.Spells t := by
  by_cases hk : k = pk
  · subst hk
    rw [GoMap.lookup_replace_self h] at h1
    cases h1
    exact ⟨pv, h, fun t => applyMatch_spells tok t pv⟩
  · rw [GoMap.lookup_replace_ne m hk] at h1
    exact ⟨pv1, h1, fun _ => Iff.rfl⟩

theorem lookup_before_hit {m : GoMap} {pk : String} {pv : CommandLineParameter}
    (h : m.lookup pk = some pv) (tok : String) {k : String} {pv0 : CommandLineParameter}
    (h0 : m.lookup k = some pv0) :
    ∃ pv1, (m.replace pk (applyMatch tok pv)).lookup k = some pv1 ∧
      ∀ t, pv1.Spells t ↔ pv0.Spells t := by
  by_cases hk : k = pk
  · subst hk
    rw [h] at h0
    cases h0
    exact ⟨applyMatch tok pv, GoMap.lookup_replace_self h _, fun t => applyMatch_spells tok t pv⟩
  · exact ⟨pv0, by rw [GoMap.lookup_replace_ne m hk]; exact h0, fun _ => Iff.rfl⟩

theorem recognizes_after_hit {m : GoMap} {pk : String} {pv : CommandLineParameter}
    (h : m.lookup pk = some pv) (tok t : String) :
    (m.replace pk (applyMatch tok pv)).Recognizes t ↔ m.Recognizes t := by
  constructor
  · rintro ⟨k, pv1, h1, hs⟩
    obtain ⟨pv0, h0, e⟩ := lookup_after_hit h tok h1
    exact ⟨k, pv0, h0, (e t).1 hs⟩
  · rintro ⟨k, pv0, h0, hs⟩
    obtain ⟨pv1, h1, e⟩ := lookup_before_hit h tok h0
    exact ⟨k, pv1, h1, (e t).2 hs⟩

/-- The tokens after a run: index and text as before, and a token is marked
exactly when it was marked before or some registered parameter spells it. -/
theorem run_matched {order : Nat → List String} {i : Nat} {args out : List matchItem}
    {m m1 : GoMap} (r : MatchRun order i args m out m1)
    (horder : ∀ j, m.IsRangeOrder (order j)) :
    List.Forall₂ (fun a o => o.Index = a.Index ∧ o.Value = a.Value ∧
      (o.Matched = true ↔ (a.Matched = true ∨ m.Recognizes a.Value))) args out := by
  induction r with
  | done i m => exact List.Forall₂.nil
  | @miss i cl rest out m m1 hmiss _ ih =>
    refine List.Forall₂.cons ⟨rfl, rfl, ?_⟩ (ih horder)
    constructor
    · intro h; exact Or.inl h
    · rintro (h | ⟨k, pv, hk, hs⟩)
      · exact h
      · exact absurd hs (hmiss k ((horder i).mem_iff.2 (GoMap.mem_keys_of_lookup hk)) pv hk)
  | @hit i cl rest out m m1 pk pv hpk hl hs _ ih =>
    have horder1 : ∀ j, (m.replace pk (applyMatch cl.Value pv)).IsRangeOrder (order j) := by
      intro j
      unfold GoMap.IsRangeOrder
      rw [GoMap.keys_replace]
      exact horder j
    refine List.Forall₂.cons ⟨rfl, rfl, ?_⟩ ?_
    · exact ⟨fun _ => Or.inr ⟨pk, pv, hl, hs⟩, fun _ => rfl⟩
    · refine List.Forall₂.imp ?_ (ih horder1)
      rintro a o ⟨h1, h2, h3⟩
      refine ⟨h1, h2, ?_⟩
      rw [h3, recognizes_after_hit hl]

theorem run_deterministic_tokens {args out out1 : List matchItem} {P : String → Prop}
    (h : List.Forall₂ (fun a o => o.Index = a.Index ∧ o.Value = a.Value ∧
      (o.Matched = true ↔ (a.Matched = true ∨ P a.Value))) args out)
    (h1 : List.Forall₂ (fun a o => o.Index = a.Index ∧ o.Value = a.Value ∧
      (o.Matched = true ↔ (a.Matched = true ∨ P a.Value))) args out1) :
    out = out1 := by
  induction h generalizing out1 with
  | nil => cases h1; rfl
  | @cons a o as os hao _ ih =>
    cases h1 with
    | @cons _ o1 _ os1 hao1 htl =>
      rw [ih htl]
      congr 1
      have hI : o.Index = o1.Index := hao.1.trans hao1.1.symm
      have hV : o.Value = o1.Value := hao.2.1.trans hao1.2.1.symm
      have hM : o.Matched = o1.Matched := Bool.eq_iff_iff.2 (hao.2.2.trans hao1.2.2.symm)
      cases o
      cases o1
      simp only at hI hV hM
      rw [hI, hV, hM]

theorem forall₂_map_value {args out : List matchItem} {Q : matchItem → matchItem → Prop}
    (h : List.Forall₂ Q args out) (hv : ∀ a o, Q a o → o.Value = a.Value) :
    out.map (fun o => o.Value) = args.map (fun a => a.Value) := by
  induction h with
  | nil => rfl
  | cons hao _ ih => simp [hv _ _ hao, ih]

theorem forall₂_mem_right {α β : Type} {R : α → β → Prop} {l : List α} {l1 : List β}
    (h : List.Forall₂ R l l1) {b : β} (hb : b ∈ l1) : ∃ a ∈ l, R a b := by
  induction h with
  | nil => cases hb
  | @cons a0 b0 as bs hab _ ih =>
    rcases List.mem_cons.1 hb with rfl | hb
    · exact ⟨a0, List.mem_cons_self _ _, hab⟩
    · obtain ⟨a, ha, hr⟩ := ih hb
      exact ⟨a, List.mem_cons_of_mem _ ha, hr⟩

/-- `MatchCommandLine` in terms of a run of its token loop. -/
theorem MatchCommandLine_run (caseTable : Char → Char) (order : Nat → List String)
    (cs : CommandSet) (args : List matchItem) :
    ∃ out m1, cs.MatchCommandLine caseTable order args
        = .ok (false, out, { cs with Parameters := m1 }) ∧
      MatchRun order 0 args cs.Parameters out m1 := by
  obtain ⟨out, m1, e, r⟩ := matchArgs_run caseTable order args 0 cs.Parameters
  exact ⟨out, m1, by simp [CommandSet.MatchCommandLine, e], r⟩

/-- A flag that is the only parameter spelling `t` is set by a run whose tokens
contain `t`, and stays set to the end of the run. -/
theorem run_flag_set {order : Nat → List String} {i : Nat} {args out : List matchItem}
    {m m1 : GoMap} (r : MatchRun order i args m out m1) (kf t : String) :
    ∀ (f : Flag), (∀ j, m.IsRangeOrder (order j)) →
      m.lookup kf = some (.flag f) →
      (CommandLineParameter.flag f).Spells t →
      (∀ k pv, m.lookup k = some pv → pv.Spells t → k = kf) →
      (t ∈ args.map (fun a => a.Value) ∨ (f.flagValue = true ∧ f.valueSet = true)) →
      ∃ f1, m1.lookup kf = some (.flag f1) ∧ f1.flagValue = true ∧ f1.valueSet = true := by
  induction r with
  | done i m =>
    intro f _ hf _ _ ht
    rcases ht with ht | ht
    · simp at ht
    · exact ⟨f, hf, ht.1, ht.2⟩
  | @miss i cl rest out m m1 hmiss _ ih =>
    intro f horder hf hs honly ht
    have hne : cl.Value ≠ t := by
      intro e
      have hk : kf ∈ order i := (horder i).mem_iff.2 (GoMap.mem_keys_of_lookup hf)
      exact hmiss kf hk _ hf (e ▸ hs)
    refine ih f horder hf hs honly ?_
    rcases ht with ht | ht
    · left
      rcases List.mem_cons.1 ht with e | ht
      · exact absurd e.symm hne
      · exact ht
    · exact Or.inr ht
  | @hit i cl rest out m m1 pk pv hpk hl hsp _ ih =>
    intro f horder hf hs honly ht
    have horder1 : ∀ j, (m.replace pk (applyMatch cl.Value pv)).IsRangeOrder (order j) := by
      intro j
      unfold GoMap.IsRangeOrder
      rw [GoMap.keys_replace]
      exact horder j
    have honly1 : ∀ k pv1, (m.replace pk (applyMatch cl.Value pv)).lookup k = some pv1 →
        pv1.Spells t → k = kf := by
      intro k pv1 h1 hs1
      obtain ⟨pv0, h0, e⟩ := lookup_after_hit hl cl.Value h1
      exact honly k pv0 h0 ((e t).1 hs1)
    by_cases hk : pk = kf
    · subst hk
      rw [hf] at hl
      cases hl
      have hf1 : (m.replace pk (applyMatch cl.Value (.flag f))).lookup pk
          = some (.flag f.SetFlag) := GoMap.lookup_replace_self hf _
      exact ih f.SetFlag horder1 hf1 hs honly1 (Or.inr ⟨rfl, rfl⟩)
    · have hne : cl.Value ≠ t := by
        intro e
        exact hk (honly pk pv hl (e ▸ hsp))
      have hf1 : (m.replace pk (applyMatch cl.Value pv)).lookup kf = some (.flag f) := by
        rw [GoMap.lookup_replace_ne m (Ne.symm hk)]
        exact hf
      refine ih f horder1 hf1 hs honly1 ?_
      rcases ht with ht | ht
      · left
        rcases List.mem_cons.1 ht with e | ht
        · exact absurd e.symm hne
        · exact ht
      · exact Or.inr ht

/-! ## Lemmas: names -/

theorem trim_eq_nil_iff (p : Char → Bool) (l : List Char) :
    ((l.dropWhile p).reverse.dropWhile p).reverse = [] ↔ ∀ c ∈ l, p c = true := by
  rw [List.reverse_eq_nil_iff, List.dropWhile_eq_nil_iff]
  constructor
  · intro h
    have hnil : l.dropWhile p = [] := by
      by_contra hne
      have h1 := List.head_dropWhile_not p l hne
      have h2 := h _ (List.mem_reverse.2 (List.head_mem hne))
      rw [h2] at h1
      cases h1
    exact List.dropWhile_eq_nil_iff.1 hnil
  · intro h
    rw [List.dropWhile_eq_nil_iff.2 h]
    simp

theorem TrimSpace_eq_empty_iff (v : String) :
    TrimSpace v = "" ↔ ∀ c ∈ v.data, isSpace c = true := by
  rw [← trim_eq_nil_iff]
  unfold TrimSpace
  constructor
  · intro h; exact congrArg String.data h
  · intro h; rw [h]

theorem hasEmptyName_iff (names : List String) :
    hasEmptyName names = true ↔ ∃ v ∈ names, TrimSpace v = "" := by
  induction names with
  | nil => simp [hasEmptyName]
  | cons v rest ih =>
    by_cases h : len (TrimSpace v) = 0
    · simp only [hasEmptyName, h, if_true, true_iff]
      exact ⟨v, List.mem_cons_self _ _, (len_eq_zero_iff _).1 h⟩
    · have h1 : TrimSpace v ≠ "" := fun e => h ((len_eq_zero_iff _).2 e)
      simp only [hasEmptyName, h, if_false, ih, List.mem_cons, exists_eq_or_imp, h1, false_or]

/-! ## Lemmas: `truthyString` -/

theorem truthyLetters_ascii : ∀ d ∈ truthyLetters, d.toNat ≤ 0x7F := by decide

theorem truthyLetters_lower : ∀ d ∈ truthyLetters, d.toLower = d := by decide

theorem toLower_of_not_ascii (c : Char) (hc : 0x7F < c.toNat) : c.toLower = c := by
  unfold Char.toLower
  simp only
  rw [if_neg]
  omega

theorem runeToLower_ascii (caseTable : Char → Char) (c : Char) (hc : c.toNat ≤ 0x7F) :
    runeToLower caseTable c = c.toLower := by
  unfold runeToLower Char.toLower
  rw [if_pos hc]
  rfl

theorem runeToLower_eq_iff (caseTable : Char → Char)
    (h : CaseTableAvoidsTruthyLetters caseTable) (c d : Char) (hd : d ∈ truthyLetters) :
    runeToLower caseTable c = d ↔ c.toLower = d := by
  by_cases hc : c.toNat ≤ 0x7F
  · rw [runeToLower_ascii caseTable c hc]
  · have hc1 : 0x7F < c.toNat := by omega
    have e : runeToLower caseTable c = caseTable c := by
      unfold runeToLower
      rw [if_neg hc]
    rw [e, toLower_of_not_ascii c hc1]
    constructor
    · intro h1
      exact absurd (h1 ▸ hd) (h c hc1)
    · intro h1
      have := truthyLetters_ascii d hd
      rw [← h1] at this
      omega

theorem map_runeToLower_eq_iff (caseTable : Char → Char)
    (h : CaseTableAvoidsTruthyLetters caseTable) (l : List Char) :
    ∀ lit : List Char, (∀ d ∈ lit, d ∈ truthyLetters) →
      (l.map (runeToLower caseTable) = lit ↔
        List.Forall₂ (fun a b => a.toLower = b.toLower) l lit) := by
  induction l with
  | nil =>
    intro lit _
    cases lit <;> simp
  | cons c cs ih =>
    intro lit hlit
    cases lit with
    | nil => simp
    | cons d ds =>
      have hd : d ∈ truthyLetters := hlit d (List.mem_cons_self _ _)
      have hds : ∀ x ∈ ds, x ∈ truthyLetters := fun x hx => hlit x (List.mem_cons_of_mem _ hx)
      simp only [List.map_cons, List.cons.injEq, List.forall₂_cons, ih ds hds,
        runeToLower_eq_iff caseTable h c d hd, truthyLetters_lower d hd]

theorem ToLower_eq_iff (caseTable : Char → Char)
    (h : CaseTableAvoidsTruthyLetters caseTable) (s lit : String)
    (hlit : ∀ d ∈ lit.data, d ∈ truthyLetters) :
    ToLower caseTable s = lit ↔ EqualsIgnoringCase s lit := by
  unfold EqualsIgnoringCase
  rw [← map_runeToLower_eq_iff caseTable h s.data lit.data hlit]
  unfold ToLower
  constructor
  · intro e; exact congrArg String.data e
  · intro e; rw [e]

theorem truthyString_iff (caseTable : Char → Char)
    (h : CaseTableAvoidsTruthyLetters caseTable) (s : String) :
    truthyString caseTable s = true ↔
      (EqualsIgnoringCase s "1" ∨ EqualsIgnoringCase s "true" ∨ EqualsIgnoringCase s "yes") := by
  rw [← ToLower_eq_iff caseTable h s "1" (by decide),
    ← ToLower_eq_iff caseTable h s "true" (by decide),
    ← ToLower_eq_iff caseTable h s "yes" (by decide)]
  unfold truthyString StringTruthyOne StringTruthyTrue StringTruthyYes
  simp

theorem ascii_char_forall (P : Char → Prop) (h : ∀ n, n < 128 → P (Char.ofNat n))
    (c : Char) (hc : c.toNat ≤ 0x7F) : P c := by
  have := h c.toNat (by omega)
  rwa [Char.ofNat_toNat] at this

set_option maxRecDepth 100000 in
theorem ascii_toLower_truthy :
    ∀ n, n < 128 → ∀ d ∈ truthyLetters,
      ((Char.ofNat n).toLower = d ↔ (Char.ofNat n = d ∨ Char.ofNat n = d.toUpper)) := by
  decide

theorem truthyLetters_upper_ascii : ∀ d ∈ truthyLetters, d.toUpper.toNat ≤ 0x7F := by decide

theorem toLower_eq_truthyLetter_iff (c d : Char) (hd : d ∈ truthyLetters) :
    c.toLower = d ↔ (c = d ∨ c = d.toUpper) := by
  by_cases hc : c.toNat ≤ 0x7F
  · exact ascii_char_forall (fun c => c.toLower = d ↔ (c = d ∨ c = d.toUpper))
      (fun n hn => ascii_toLower_truthy n hn d hd) c hc
  · have hc1 : 0x7F < c.toNat := by omega
    rw [toLower_of_not_ascii c hc1]
    have h1 := truthyLetters_ascii d hd
    have h2 := truthyLetters_upper_ascii d hd
    constructor
    · intro e; exact Or.inl e
    · rintro (e | e)
      · exact e
      · rw [← e] at h2; omega

theorem forall₂_iff_mem_caseVariants (lit : List Char) :
    (∀ d ∈ lit, d ∈ truthyLetters) → ∀ l : List Char,
      (List.Forall₂ (fun a b => a.toLower = b.toLower) l lit ↔ l ∈ caseVariants lit) := by
  induction lit with
  | nil =>
    intro _ l
    cases l <;> simp [caseVariants]
  | cons d ds ih =>
    intro hlit l
    have hd : d ∈ truthyLetters := hlit d (List.mem_cons_self _ _)
    have hds : ∀ x ∈ ds, x ∈ truthyLetters := fun x hx => hlit x (List.mem_cons_of_mem _ hx)
    cases l with
    | nil =>
      simp only [caseVariants, List.mem_flatMap]
      constructor
      · intro h; cases h
      · rintro ⟨r, _, hr⟩
        split at hr <;> simp at hr
    | cons a as =>
      simp only [caseVariants, List.mem_flatMap, List.forall₂_cons, ih hds,
        truthyLetters_lower d hd, toLower_eq_truthyLetter_iff a d hd]
      constructor
      · rintro ⟨ha, has⟩
        refine ⟨as, has, ?_⟩
        split
        · rename_i hu
          rcases ha with rfl | rfl
          · simp
          · simp [hu]
        · rcases ha with rfl | rfl <;> simp
      · rintro ⟨r, hr, hmem⟩
        split at hmem
        · simp only [List.mem_singleton, List.cons.injEq] at hmem
          exact ⟨Or.inl hmem.1, hmem.2 ▸ hr⟩
        · simp only [List.mem_cons, List.cons.injEq, List.mem_singleton, List.not_mem_nil,
            or_false] at hmem
          rcases hmem with ⟨e1, e2⟩ | ⟨e1, e2⟩
          · exact ⟨Or.inl e1, e2 ▸ hr⟩
          · exact ⟨Or.inr e1, e2 ▸ hr⟩

theorem caseVariants_truthy :
    caseVariants "1".data ++ caseVariants "true".data ++ caseVariants "yes".data
      = truthySpellings.map String.data := by
  decide

theorem truthyString_iff_mem (caseTable : Char → Char)
    (h : CaseTableAvoidsTruthyLetters caseTable) (s : String) :
    truthyString caseTable s = true ↔ s ∈ truthySpellings := by
  rw [truthyString_iff caseTable h]
  unfold EqualsIgnoringCase
  rw [forall₂_iff_mem_caseVariants _ (by decide), forall₂_iff_mem_caseVariants _ (by decide),
    forall₂_iff_mem_caseVariants _ (by decide)]
  have e : s ∈ truthySpellings ↔ s.data ∈ truthySpellings.map String.data := by
    constructor
    · intro hs; exact List.mem_map_of_mem _ hs
    · intro hs
      obtain ⟨x, hx, hxe⟩ := List.mem_map.1 hs
      have : x = s := by
        cases x; cases s; simp only at hxe; rw [hxe]
      exact this ▸ hx
  rw [e, ← caseVariants_truthy]
  simp only [List.mem_append, or_assoc]

theorem truthySpellings_no_space : ∀ x ∈ truthySpellings, ∀ c ∈ x.data, isSpace c = false := by
  decide

/-! ## Lemmas: registration and prefixes -/

theorem getD_of_lt (cur : List String) (i : Nat) (h : i < cur.length) :
    cur.getD i "" = cur[i] := by
  simp [List.getD_eq_getElem?_getD, List.getElem?_eq_getElem h]

theorem set_getElem_same (l : List String) (i : Nat) (h : i < l.length) :
    l.set i l[i] = l := by
  apply List.ext_getElem (by simp)
  intro n h1 h2
  rw [List.getElem_set]
  split
  · rename_i e; subst e; rfl
  · rfl

/-- Once no append fits in place, the loop appends the elements of the
argument as they are. -/
theorem appendRange_no_room (shift : Maybe Nat) :
    ∀ (k i : Nat) (cur acc : List String), i + k = cur.length →
      appendRange shift k i 0 cur acc = acc ++ cur.drop i := by
  intro k
  induction k with
  | zero =>
    intro i cur acc h
    have : cur.drop i = [] := List.drop_eq_nil_of_le (by omega)
    simp [appendRange, this]
  | succ k ih =>
    intro i cur acc h
    have hi : i < cur.length := by omega
    rw [appendRange, ih (i + 1) cur _ (by omega), getD_of_lt cur i hi,
      List.drop_eq_getElem_cons hi]
    simp

/-- When no in-place append lands on an element of the argument that is still
to be read, the loop appends the elements of the argument as they are. -/
theorem appendRange_no_overlap (shift : Maybe Nat) (hs : shift = none ∨ shift = some 0) :
    ∀ (k i room : Nat) (cur acc : List String), i + k = cur.length →
      appendRange shift k i room cur acc = acc ++ cur.drop i := by
  intro k
  induction k with
  | zero =>
    intro i room cur acc h
    have : cur.drop i = [] := List.drop_eq_nil_of_le (by omega)
    simp [appendRange, this]
  | succ k ih =>
    intro i room cur acc h
    have hi : i < cur.length := by omega
    cases room with
    | zero => exact appendRange_no_room shift (k + 1) i cur acc h
    | succ r =>
      have hv := getD_of_lt cur i hi
      have hd := List.drop_eq_getElem_cons hi
      rcases hs with e | e
      · subst e
        simp only [appendRange]
        rw [ih (i + 1) r cur _ (by omega), hv, hd]
        simp
      · subst e
        simp only [appendRange, Nat.zero_add]
        rw [hv, set_getElem_same cur i hi, ih (i + 1) r cur _ (by omega), hd]
        simp

theorem GoMap.lookup_store_self (t : AList (fun _ : String => CommandLineParameter))
    (k : String) (v : CommandLineParameter) :
    GoMap.lookup k (.table (t.insert k v)) = some v :=
  AList.lookup_insert t

theorem GoMap.lookup_store_ne (t : AList (fun _ : String => CommandLineParameter))
    {k k1 : String} (h : k1 ≠ k) (v : CommandLineParameter) :
    GoMap.lookup k1 (.table (t.insert k v)) = GoMap.lookup k1 (.table t) :=
  AList.lookup_insert_ne h

/-! ## Lemmas: what a run leaves alone -/

/-- A run keeps the keys, and keeps the record of every parameter that spells
none of the tokens. -/
theorem run_frame {order : Nat → List String} {i : Nat} {args out : List matchItem}
    {m m1 : GoMap} (r : MatchRun order i args m out m1) :
    m1.keys = m.keys ∧
    ∀ k pv, m.lookup k = some pv → (∀ a ∈ args, ¬ pv.Spells a.Value) →
      m1.lookup k = some pv := by
  induction r with
  | done i m => exact ⟨rfl, fun _ _ h _ => h⟩
  | @miss i cl rest out m m1 _ _ ih =>
    refine ⟨ih.1, fun k pv hk hno => ih.2 k pv hk ?_⟩
    intro a ha
    exact hno a (List.mem_cons_of_mem _ ha)
  | @hit i cl rest out m m1 pk pv hpk hl hs _ ih =>
    refine ⟨ih.1.trans (GoMap.keys_replace m pk _), fun k pv0 hk hno => ih.2 k pv0 ?_ ?_⟩
    · have hne : k ≠ pk := by
        rintro rfl
        rw [hl] at hk
        cases hk
        exact hno cl (List.mem_cons_self _ _) hs
      rw [GoMap.lookup_replace_ne m hne]
      exact hk
    · intro a ha
      exact hno a (List.mem_cons_of_mem _ ha)

/-- A run over tokens that no registered parameter spells changes nothing. -/
theorem run_nothing_recognized {order : Nat → List String} {i : Nat}
    {args out : List matchItem} {m m1 : GoMap} (r : MatchRun order i args m out m1)
    (hno : ∀ a ∈ args, ¬ m.Recognizes a.Value) : m1 = m ∧ out = args := by
  induction r with
  | done i m => exact ⟨rfl, rfl⟩
  | @miss i cl rest out m m1 _ _ ih =>
    obtain ⟨e1, e2⟩ := ih (fun a ha => hno a (List.mem_cons_of_mem _ ha))
    exact ⟨e1, by rw [e2]⟩
  | @hit i cl rest out m m1 pk pv hpk hl hs _ _ =>
    exact absurd ⟨pk, pv, hl, hs⟩ (hno cl (List.mem_cons_self _ _))

/-! ## Lemmas: an option that alone spells the tokens -/

theorem scanOption_cons (o : Option) (t : String) (rest : List String) :
    scanOption o (t :: rest)
      = scanOption (if matchNames t o.GetPrefix o.GetName then o.SetValue t else o) rest := rfl

theorem scanOption_append (o : Option) (l l1 : List String) :
    scanOption o (l ++ l1) = scanOption (scanOption o l) l1 := by
  unfold scanOption
  rw [List.foldl_append]

theorem scanOption_names (toks : List String) :
    ∀ o : Option, (scanOption o toks).GetName = o.GetName ∧
      (scanOption o toks).GetPrefix = o.GetPrefix := by
  induction toks with
  | nil => intro o; exact ⟨rfl, rfl⟩
  | cons t rest ih =>
    intro o
    rw [scanOption_cons]
    by_cases h : matchNames t o.GetPrefix o.GetName = true
    · rw [if_pos h]
      exact ih (o.SetValue t)
    · rw [if_neg h]
      exact ih o

theorem scanOption_none_spelled (toks : List String) (o : Option)
    (h : ∀ t ∈ toks, matchNames t o.GetPrefix o.GetName = false) :
    scanOption o toks = o := by
  induction toks with
  | nil => rfl
  | cons t rest ih =>
    rw [scanOption_cons, h t (List.mem_cons_self _ _)]
    exact ih (fun x hx => h x (List.mem_cons_of_mem _ hx))

/-- The value after the scan is the last token the option spells. -/
theorem scanOption_last (o : Option) (pre post : List String) (tok : String)
    (htok : matchNames tok o.GetPrefix o.GetName = true)
    (hpost : ∀ t ∈ post, matchNames t o.GetPrefix o.GetName = false) :
    (scanOption o (pre ++ tok :: post)).value = tok ∧
    (scanOption o (pre ++ tok :: post)).valueSet = true := by
  obtain ⟨hn, hp⟩ := scanOption_names pre o
  have e : scanOption o (pre ++ tok :: post) = (scanOption o pre).SetValue tok := by
    rw [scanOption_append, scanOption_cons, hn, hp, if_pos htok]
    exact scanOption_none_spelled post _ (by
      intro t ht
      have := hpost t ht
      rw [← hn, ← hp] at this
      exact this)
  rw [e]
  exact ⟨rfl, rfl⟩

/-- When the option under `ko` is the only parameter that spells any of the
tokens, a run leaves under `ko` the option after the scan of the tokens. -/
theorem run_only_option {order : Nat → List String} {i : Nat} {args out : List matchItem}
    {m m1 : GoMap} (r : MatchRun order i args m out m1) (ko : String) :
    ∀ o : Option, (∀ j, m.IsRangeOrder (order j)) →
      m.lookup ko = some (.option o) →
      (∀ a ∈ args, ∀ k pv, m.lookup k = some pv → pv.Spells a.Value → k = ko) →
      m1.lookup ko = some (.option (scanOption o (args.map (fun a => a.Value)))) := by
  induction r with
  | done i m => intro o _ ho _; exact ho
  | @miss i cl rest out m m1 hmiss _ ih =>
    intro o horder ho honly
    have hk : ko ∈ order i := (horder i).mem_iff.2 (GoMap.mem_keys_of_lookup ho)
    have hns : matchNames cl.Value o.GetPrefix o.GetName = false := by
      cases hb : matchNames cl.Value o.GetPrefix o.GetName with
      | false => rfl
      | true =>
        exact absurd ((matchNames_eq_true_iff_spells cl.Value (.option o)).1 hb)
          (hmiss ko hk _ ho)
    rw [List.map_cons, scanOption_cons, hns]
    exact ih o horder ho (fun a ha => honly a (List.mem_cons_of_mem _ ha))
  | @hit i cl rest out m m1 pk pv hpk hl hsp _ ih =>
    intro o horder ho honly
    have hpk1 : pk = ko := honly cl (List.mem_cons_self _ _) pk pv hl hsp
    subst hpk1
    rw [ho] at hl
    cases hl
    have hs : matchNames cl.Value o.GetPrefix o.GetName = true :=
      (matchNames_eq_true_iff_spells cl.Value (.option o)).2 hsp
    rw [List.map_cons, scanOption_cons, hs]
    refine ih (o.SetValue cl.Value) ?_ (GoMap.lookup_replace_self ho _) ?_
    · intro j
      unfold GoMap.IsRangeOrder
      rw [GoMap.keys_replace]
      exact horder j
    · intro a ha k pv1 h1 hs1
      obtain ⟨pv0, h0, e⟩ := lookup_after_hit ho cl.Value h1
      exact honly a (List.mem_cons_of_mem _ ha) k pv0 h0 ((e _).1 hs1)

/-! ## Lemmas: sequences of calls on an Option or an Argument -/

theorem option_GetValue_state_of_no_default (o : Option) (h : o.defaultSet = false) :
    o.GetValue.2 = o := by
  unfold Option.GetValue
  cases hv : o.valueSet <;> simp [h]

theorem argument_GetValue_state_of_no_default (a : Argument) (h : a.defaultSet = false) :
    a.GetValue.2 = a := by
  unfold Argument.GetValue
  cases hv : a.valueSet <;> simp [h]

/-- One call on an Option with no default source marked present: the default
fields stay, the set mark is raised by `SetValue` only, and the value is
written by `SetValue` and `SetDefault` only. -/
theorem option_apply_spec (caseTable : Char → Char) (o : Option) (op : Operation)
    (h : o.defaultSet = false) :
    (o.apply caseTable op).defaultSet = false ∧
    (o.apply caseTable op).envDefault = o.envDefault ∧
    (o.apply caseTable op).configDefault = o.configDefault ∧
    (o.apply caseTable op).valueSet = (o.valueSet || op.isSetValue) ∧
    (o.apply caseTable op).value = (op.written).getD o.value := by
  cases op with
  | SetDefault s => simp [Option.apply, Option.SetDefault, Operation.isSetValue,
      Operation.written, h]
  | SetKey s =>
    by_cases hs : len s = 0 <;>
      simp [Option.apply, Option.SetKey, Operation.isSetValue, Operation.written, h, hs]
  | SetName names =>
    by_cases hs : hasEmptyName names = true <;>
      simp [Option.apply, Option.SetName, Operation.isSetValue, Operation.written, h, hs]
  | SetPrefix list appendToList layout =>
    cases appendToList <;>
      simp [Option.apply, Option.SetPrefix, Operation.isSetValue, Operation.written, h]
  | SetRequired b => simp [Option.apply, Option.SetRequired, Operation.isSetValue,
      Operation.written, h]
  | SetValue s => simp [Option.apply, Option.SetValue, Operation.isSetValue,
      Operation.written, h]
  | GetValue =>
    simp [Option.apply, option_GetValue_state_of_no_default o h, Operation.isSetValue,
      Operation.written, h]
  | GetFlag =>
    have e : (o.GetFlag caseTable).2 = o := by
      unfold Option.GetFlag
      simp only
      split <;> exact option_GetValue_state_of_no_default o h
    simp [Option.apply, e, Operation.isSetValue, Operation.written, h]
  | GetInt => simp [Option.apply, Operation.isSetValue, Operation.written, h]
  | GetUint => simp [Option.apply, Operation.isSetValue, Operation.written, h]

/-- The counterpart of `option_apply_spec` for an Argument. -/
theorem argument_apply_spec (caseTable : Char → Char) (a : Argument) (op : Operation)
    (h : a.defaultSet = false) :
    (a.apply caseTable op).defaultSet = false ∧
    (a.apply caseTable op).envDefault = a.envDefault ∧
    (a.apply caseTable op).configDefault = a.configDefault ∧
    (a.apply caseTable op).valueSet = (a.valueSet || op.isSetValue) ∧
    (a.apply caseTable op).value = (op.written).getD a.value := by
  cases op with
  | SetDefault s => simp [Argument.apply, Argument.SetDefault, Operation.isSetValue,
      Operation.written, h]
  | SetKey s =>
    by_cases hs : len s = 0 <;>
      simp [Argument.apply, Argument.SetKey, Operation.isSetValue, Operation.written, h, hs]
  | SetName names =>
    by_cases hs : hasEmptyName names = true <;>
      simp [Argument.apply, Argument.SetName, Operation.isSetValue, Operation.written, h, hs]
  | SetPrefix list appendToList layout =>
    cases appendToList <;>
      simp [Argument.apply, Argument.SetPrefix, Operation.isSetValue, Operation.written, h]
  | SetRequired b => simp [Argument.apply, Argument.SetRequired, Operation.isSetValue,
      Operation.written, h]
  | SetValue s => simp [Argument.apply, Argument.SetValue, Operation.isSetValue,
      Operation.written, h]
  | GetValue =>
    simp [Argument.apply, argument_GetValue_state_of_no_default a h, Operation.isSetValue,
      Operation.written, h]
  | GetFlag =>
    have e : (a.GetFlag caseTable).2 = a := by
      unfold Argument.GetFlag
      simp only
      split <;> exact argument_GetValue_state_of_no_default a h
    simp [Argument.apply, e, Operation.isSetValue, Operation.written, h]
  | GetInt => simp [Argument.apply, Operation.isSetValue, Operation.written, h]
  | GetUint => simp [Argument.apply, Operation.isSetValue, Operation.written, h]

theorem getLast?_filterMap_cons_getD (op : Operation) (rest : List Operation) (d : String) :
    ((lastWritten (op :: rest)).getD d) = (lastWritten rest).getD ((op.written).getD d) := by
  unfold lastWritten
  cases hw : op.written with
  | none => simp [List.filterMap_cons, hw]
  | some s =>
    simp only [List.filterMap_cons, hw, Option.getD_some]
    cases hl : List.filterMap Operation.written rest with
    | nil => simp
    | cons x xs =>
      rw [List.getLast?_cons_cons, List.getLast?_eq_getLast _ (List.cons_ne_nil x xs)]
      rfl

theorem calledSetValue_iff (ops : List Operation) :
    calledSetValue ops = true ↔ ∃ s, Operation.SetValue s ∈ ops := by
  unfold calledSetValue
  rw [List.any_eq_true]
  constructor
  · rintro ⟨op, hop, h⟩
    cases op <;> simp [Operation.isSetValue] at h
    exact ⟨_, hop⟩
  · rintro ⟨s, hs⟩
    exact ⟨_, hs, rfl⟩

theorem lastWritten_isSome_of_called (ops : List Operation) (h : calledSetValue ops = true) :
    ∃ v, lastWritten ops = some v := by
  obtain ⟨s, hs⟩ := (calledSetValue_iff ops).1 h
  have hmem : s ∈ ops.filterMap Operation.written :=
    List.mem_filterMap.2 ⟨_, hs, rfl⟩
  have hne : ops.filterMap Operation.written ≠ [] := List.ne_nil_of_mem hmem
  exact ⟨_, List.getLast?_eq_getLast _ hne⟩

/-- The state after a sequence of calls on an Option with no default source
marked present. -/
theorem option_run_spec (caseTable : Char → Char) (ops : List Operation) :
    ∀ o : Option, o.defaultSet = false →
      (o.run caseTable ops).defaultSet = false ∧
      (o.run caseTable ops).envDefault = o.envDefault ∧
      (o.run caseTable ops).configDefault = o.configDefault ∧
      (o.run caseTable ops).valueSet = (o.valueSet || calledSetValue ops) ∧
      (o.run caseTable ops).value = (lastWritten ops).getD o.value := by
  induction ops with
  | nil => intro o h; exact ⟨h, rfl, rfl, by simp [Option.run, calledSetValue], rfl⟩
  | cons op rest ih =>
    intro o h
    obtain ⟨h1, h2, h3, h4, h5⟩ := option_apply_spec caseTable o op h
    obtain ⟨i1, i2, i3, i4, i5⟩ := ih (o.apply caseTable op) h1
    have e : o.run caseTable (op :: rest) = (o.apply caseTable op).run caseTable rest := rfl
    rw [e]
    refine ⟨i1, i2.trans h2, i3.trans h3, ?_, ?_⟩
    · rw [i4, h4]
      simp [calledSetValue, Bool.or_assoc]
    · rw [i5, h5, getLast?_filterMap_cons_getD]

/-- The counterpart of `option_run_spec` for an Argument. -/
theorem argument_run_spec (caseTable : Char → Char) (ops : List Operation) :
    ∀ a : Argument, a.defaultSet = false →
      (a.run caseTable ops).defaultSet = false ∧
      (a.run caseTable ops).envDefault = a.envDefault ∧
      (a.run caseTable ops).configDefault = a.configDefault ∧
      (a.run caseTable ops).valueSet = (a.valueSet || calledSetValue ops) ∧
      (a.run caseTable ops).value = (lastWritten ops).getD a.value := by
  induction ops with
  | nil => intro a h; exact ⟨h, rfl, rfl, by simp [Argument.run, calledSetValue], rfl⟩
  | cons op rest ih =>
    intro a h
    obtain ⟨h1, h2, h3, h4, h5⟩ := argument_apply_spec caseTable a op h
    obtain ⟨i1, i2, i3, i4, i5⟩ := ih (a.apply caseTable op) h1
    have e : a.run caseTable (op :: rest) = (a.apply caseTable op).run caseTable rest := rfl
    rw [e]
    refine ⟨i1, i2.trans h2, i3.trans h3, ?_, ?_⟩
    · rw [i4, h4]
      simp [calledSetValue, Bool.or_assoc]
    · rw [i5, h5, getLast?_filterMap_cons_getD]

/-! ## Lemmas: the stored value and the result of `GetValue` -/

/-- After a `GetValue()` that succeeds, the stored value is the string it
returned. -/
theorem option_value_after_GetValue (o : Option) (r : String)
    (h : o.GetValue.1 = (r, error.nil)) : o.GetValue.2.value = r := by
  unfold Option.GetValue at h ⊢
  split_ifs at h ⊢ <;> simp_all

/-- The counterpart of `option_value_after_GetValue` for an Argument. -/
theorem argument_value_after_GetValue (a : Argument) (r : String)
    (h : a.GetValue.1 = (r, error.nil)) : a.GetValue.2.value = r := by
  unfold Argument.GetValue at h ⊢
  split_ifs at h ⊢ <;> simp_all

/-- With a value set or no default source marked present, a `GetValue()` that
succeeds returns the stored value. -/
theorem option_value_of_GetValue (o : Option) (r : String)
    (ho : o.valueSet = true ∨ o.defaultSet = false)
    (h : o.GetValue.1 = (r, error.nil)) : o.value = r := by
  unfold Option.GetValue at h
  rcases ho with hv | hd
  · simp [hv] at h
    exact h
  · cases hv : o.valueSet
    · simp [hv, hd] at h
    · simp [hv] at h
      exact h

/-- The counterpart of `option_value_of_GetValue` for an Argument. -/
theorem argument_value_of_GetValue (a : Argument) (r : String)
    (ha : a.valueSet = true ∨ a.defaultSet = false)
    (h : a.GetValue.1 = (r, error.nil)) : a.value = r := by
  unfold Argument.GetValue at h
  rcases ha with hv | hd
  · simp [hv] at h
    exact h
  · cases hv : a.valueSet
    · simp [hv, hd] at h
    · simp [hv] at h
      exact h

/-! ## Claims -/

/-- C1: for every command set, every token sequence (tokens not yet marked, as
`Run` builds them) and every order in which the map is visited,
`MatchCommandLine` returns, the tokens keep their text, and a token is marked
matched if and only if some registered parameter has a name `n` in `GetName()`
and a prefix `p` in `GetPrefix()` with token `= p + n`; the tokens after the
call are the same for any two visiting orders. -/
theorem C1_matched_iff_prefix_name (caseTable : Char → Char)
    (order order1 : Nat → List String) (cs : CommandSet) (args : List matchItem)
    (horder : ∀ i, cs.Parameters.IsRangeOrder (order i))
    (horder1 : ∀ i, cs.Parameters.IsRangeOrder (order1 i))
    (hargs : ∀ a ∈ args, a.Matched = false) :
    ∃ out cs1 cs2,
      cs.MatchCommandLine caseTable order args = .ok (false, out, cs1) ∧
      cs.MatchCommandLine caseTable order1 args = .ok (false, out, cs2) ∧
      out.map (fun o => o.Value) = args.map (fun a => a.Value) ∧
      ∀ o ∈ out, (o.Matched = true ↔
        ∃ k pv n p, cs.Parameters.lookup k = some pv ∧ n ∈ pv.GetName ∧
          p ∈ pv.GetPrefix ∧ o.Value = p ++ n) := by
  obtain ⟨out, m1, e, r⟩ := MatchCommandLine_run caseTable order cs args
  obtain ⟨out1, m2, e1, r1⟩ := MatchCommandLine_run caseTable order1 cs args
  have h := run_matched r horder
  have h1 := run_matched r1 horder1
  have hout : out1 = out := run_deterministic_tokens h1 h
  subst hout
  refine ⟨out1, _, _, e, e1, forall₂_map_value h (fun _ _ q => q.2.1), ?_⟩
  intro o ho
  obtain ⟨a, ha, -, hv, hm⟩ := forall₂_mem_right h ho
  rw [hm, hv]
  constructor
  · rintro (hx | ⟨k, pv, hk, n, hn, p, hp, e⟩)
    · rw [hargs a ha] at hx; cases hx
    · exact ⟨k, pv, n, p, hk, hn, hp, e⟩
  · rintro ⟨k, pv, n, p, hk, hn, hp, e⟩
    exact Or.inr ⟨k, pv, hk, n, hn, p, hp, e⟩

/-- C1 at the command set with the flag `-v` and the tokens `-v file.txt`. -/
theorem C1_matched_iff_prefix_name_witness :
    ∃ out cs1 cs2,
      exampleVerboseSet.MatchCommandLine id (fun _ => ["verbose"]) exampleVerboseArgs
        = .ok (false, out, cs1) ∧
      exampleVerboseSet.MatchCommandLine id (fun _ => ["verbose"]) exampleVerboseArgs
        = .ok (false, out, cs2) ∧
      out.map (fun o => o.Value) = exampleVerboseArgs.map (fun a => a.Value) ∧
      ∀ o ∈ out, (o.Matched = true ↔
        ∃ k pv n p, exampleVerboseSet.Parameters.lookup k = some pv ∧ n ∈ pv.GetName ∧
          p ∈ pv.GetPrefix ∧ o.Value = p ++ n) :=
  C1_matched_iff_prefix_name id (fun _ => ["verbose"]) (fun _ => ["verbose"])
    exampleVerboseSet exampleVerboseArgs (fun _ => List.Perm.refl _)
    (fun _ => List.Perm.refl _) (by decide)

/-- C2, as stated, fails: with the names `v`, `verbose` and the prefixes `-`,
`--` the token `-verbose` is marked matched, being the prefix `-` followed by
the name `verbose`. -/
theorem C2_single_dash_verbose_matches :
    marksOf (exampleNamesSet.MatchCommandLine id (fun _ => ["verbose"])
      [⟨1, false, "-v"⟩, ⟨2, false, "--verbose"⟩, ⟨3, false, "-verbose"⟩])
      = [("-v", true), ("--verbose", true), ("-verbose", true)] := by
  decide

/-- C2, amended: for a Flag or Option with the names `v`, `verbose` and the
prefixes `-`, `--`, registered under a key of a command set, `MatchCommandLine`
marks every token that is one of `-v`, `--v`, `-verbose`, `--verbose` (each
prefix with each name), and a token it marks that is none of the four is
spelled by a parameter under another key. -/
theorem C2_every_prefix_with_every_name (caseTable : Char → Char)
    (order : Nat → List String) (cs : CommandSet) (args : List matchItem)
    (k : String) (pv : CommandLineParameter)
    (horder : ∀ i, cs.Parameters.IsRangeOrder (order i))
    (hargs : ∀ a ∈ args, a.Matched = false)
    (hk : cs.Parameters.lookup k = some pv)
    (hkind : ∀ a, pv ≠ .argument a)
    (hname : pv.toParameter.Name = ["v", "verbose"])
    (hpfx : pv.toParameter.Prefix = ["-", "--"]) :
    ∃ out cs1,
      cs.MatchCommandLine caseTable order args = .ok (false, out, cs1) ∧
      out.map (fun o => o.Value) = args.map (fun a => a.Value) ∧
      ∀ o ∈ out,
        (o.Value ∈ ["-v", "--v", "-verbose", "--verbose"] → o.Matched = true) ∧
        (o.Matched = true → o.Value ∉ ["-v", "--v", "-verbose", "--verbose"] →
          ∃ k1 pv1, k1 ≠ k ∧ cs.Parameters.lookup k1 = some pv1 ∧ pv1.Spells o.Value) := by
  obtain ⟨out, m1, e, r⟩ := MatchCommandLine_run caseTable order cs args
  have h := run_matched r horder
  have hgn : pv.GetName = ["v", "verbose"] := by
    cases pv with
    | flag f => exact hname
    | argument a => exact absurd rfl (hkind a)
    | option o => exact hname
  have hgp : pv.GetPrefix = ["-", "--"] := by
    cases pv <;> exact hpfx
  have hsp : ∀ t, pv.Spells t ↔ t ∈ ["-v", "--v", "-verbose", "--verbose"] := by
    intro t
    unfold CommandLineParameter.Spells
    rw [hgn, hgp]
    simp only [List.mem_cons, List.mem_singleton, List.not_mem_nil, or_false,
      exists_eq_or_imp, exists_eq_left]
    have e1 : "-" ++ "v" = "-v" := by decide
    have e2 : "--" ++ "v" = "--v" := by decide
    have e3 : "-" ++ "verbose" = "-verbose" := by decide
    have e4 : "--" ++ "verbose" = "--verbose" := by decide
    rw [e1, e2, e3, e4]
    tauto
  refine ⟨out, _, e, forall₂_map_value h (fun _ _ q => q.2.1), ?_⟩
  intro o ho
  obtain ⟨a, ha, -, hv, hm⟩ := forall₂_mem_right h ho
  rw [hm, hv]
  constructor
  · intro hin
    exact Or.inr ⟨k, pv, hk, (hsp _).2 hin⟩
  · rintro (hx | ⟨k1, pv1, hk1, hs1⟩) hnot
    · rw [hargs a ha] at hx; cases hx
    · refine ⟨k1, pv1, ?_, hk1, hs1⟩
      rintro rfl
      rw [hk] at hk1
      cases hk1
      exact hnot ((hsp _).1 hs1)

/-- C2, amended, at the command set with the one flag and the tokens
`-v --verbose -verbose`. -/
theorem C2_every_prefix_with_every_name_witness :
    ∃ out cs1,
      exampleNamesSet.MatchCommandLine id (fun _ => ["verbose"])
        [⟨1, false, "-v"⟩, ⟨2, false, "--verbose"⟩, ⟨3, false, "-verbose"⟩]
        = .ok (false, out, cs1) ∧
      out.map (fun o => o.Value)
        = ([⟨1, false, "-v"⟩, ⟨2, false, "--verbose"⟩, ⟨3, false, "-verbose"⟩] :
            List matchItem).map (fun a => a.Value) ∧
      ∀ o ∈ out,
        (o.Value ∈ ["-v", "--v", "-verbose", "--verbose"] → o.Matched = true) ∧
        (o.Matched = true → o.Value ∉ ["-v", "--v", "-verbose", "--verbose"] →
          ∃ k1 pv1, k1 ≠ "verbose" ∧ exampleNamesSet.Parameters.lookup k1 = some pv1 ∧
            pv1.Spells o.Value) :=
  C2_every_prefix_with_every_name id (fun _ => ["verbose"]) exampleNamesSet
    [⟨1, false, "-v"⟩, ⟨2, false, "--verbose"⟩, ⟨3, false, "-verbose"⟩] "verbose"
    (.flag { Key := "verbose", Name := ["v", "verbose"], Prefix := ["-", "--"] })
    (fun _ => List.Perm.refl _) (by decide) (by decide) (fun a h => by cases h) rfl rfl

/-- C3, the code at the scenario of the spec: after `SetDefault("a.out")` on
the option `out` (and on the argument) and a match against `--unrelated`,
`GetValue()` returns the empty string and the missing error, not `a.out`; the
same holds for a zero-valued record and every default `d`. -/
theorem C3_default_is_not_returned :
    scenarioGetValue (.option (exampleOutOption.SetDefault "a.out").2)
      = ("", error.New "the option was not set") ∧
    scenarioGetValue (.argument (exampleOutArgument.SetDefault "a.out").2)
      = ("", error.New "argument not set") ∧
    (∀ d : String, ((({} : Option).SetDefault d).2.GetValue).1
      = ("", error.New "the option was not set")) ∧
    (∀ d : String, ((({} : Argument).SetDefault d).2.GetValue).1
      = ("", error.New "argument not set")) := by
  refine ⟨by decide, by decide, fun d => rfl, fun d => rfl⟩

/-- C4: for an Option `o` and an Argument `a` with the default sources marked
present and both the environment default and the config default non-empty:
with no value set, `GetValue()` returns the config default when
`configPreferred` is true and the environment default when it is false, with
no error; after `SetValue(v)` it returns `v` for either `configPreferred`. -/
theorem C4_default_precedence (o : Option) (a : Argument) (v : String)
    (hod : o.defaultSet = true) (hoe : o.envDefault ≠ "") (hoc : o.configDefault ≠ "")
    (hov : o.valueSet = false)
    (had : a.defaultSet = true) (hae : a.envDefault ≠ "") (hac : a.configDefault ≠ "")
    (hav : a.valueSet = false) :
    ({ o with configPreferred := true } : Option).GetValue.1 = (o.configDefault, error.nil) ∧
    ({ o with configPreferred := false } : Option).GetValue.1 = (o.envDefault, error.nil) ∧
    (∀ b : Bool, (({ o with configPreferred := b } : Option).SetValue v).GetValue.1
      = (v, error.nil)) ∧
    ({ a with configPreferred := true } : Argument).GetValue.1 = (a.configDefault, error.nil) ∧
    ({ a with configPreferred := false } : Argument).GetValue.1 = (a.envDefault, error.nil) ∧
    (∀ b : Bool, (({ a with configPreferred := b } : Argument).SetValue v).GetValue.1
      = (v, error.nil)) := by
  have h1 : len o.envDefault > 0 :=
    Nat.pos_of_ne_zero (fun h => hoe ((len_eq_zero_iff _).1 h))
  have h2 : len o.configDefault > 0 :=
    Nat.pos_of_ne_zero (fun h => hoc ((len_eq_zero_iff _).1 h))
  have h3 : len a.envDefault > 0 :=
    Nat.pos_of_ne_zero (fun h => hae ((len_eq_zero_iff _).1 h))
  have h4 : len a.configDefault > 0 :=
    Nat.pos_of_ne_zero (fun h => hac ((len_eq_zero_iff _).1 h))
  refine ⟨?_, ?_, fun b => rfl, ?_, ?_, fun b => rfl⟩
  · simp [Option.GetValue, hod, hov, h2]
  · simp [Option.GetValue, hod, hov, h1]
  · simp [Argument.GetValue, had, hav, h4]
  · simp [Argument.GetValue, had, hav, h3]

/-- C4 at an option and an argument with the defaults `from-env` and
`from-config`, and the command-line value `cli`. -/
theorem C4_default_precedence_witness :
    ({ exampleDefaultsOption with configPreferred := true } : Option).GetValue.1
      = ("from-config", error.nil) ∧
    ({ exampleDefaultsOption with configPreferred := false } : Option).GetValue.1
      = ("from-env", error.nil) ∧
    (∀ b : Bool, (({ exampleDefaultsOption with configPreferred := b } : Option).SetValue
      "cli").GetValue.1 = ("cli", error.nil)) ∧
    ({ exampleDefaultsArgument with configPreferred := true } : Argument).GetValue.1
      = ("from-config", error.nil) ∧
    ({ exampleDefaultsArgument with configPreferred := false } : Argument).GetValue.1
      = ("from-env", error.nil) ∧
    (∀ b : Bool, (({ exampleDefaultsArgument with configPreferred := b } : Argument).SetValue
      "cli").GetValue.1 = ("cli", error.nil)) :=
  C4_default_precedence exampleDefaultsOption exampleDefaultsArgument "cli"
    rfl (by decide) (by decide) rfl rfl (by decide) (by decide) rfl

/-- C5: an Option `o` and an Argument `a` with no value set and no default
source marked present fail in `GetValue()` with the empty string and their
missing error (`the option was not set`, `argument not set`); an Option `o1`
and an Argument `a1` with a value set return it with no error. -/
theorem C5_missing_error (o o1 : Option) (a a1 : Argument)
    (hov : o.valueSet = false) (hod : o.defaultSet = false)
    (hav : a.valueSet = false) (had : a.defaultSet = false)
    (ho1 : o1.valueSet = true) (ha1 : a1.valueSet = true) :
    o.GetValue.1 = ("", error.New "the option was not set") ∧
    a.GetValue.1 = ("", error.New "argument not set") ∧
    o1.GetValue.1 = (o1.value, error.nil) ∧
    a1.GetValue.1 = (a1.value, error.nil) := by
  refine ⟨?_, ?_, ?_, ?_⟩
  · simp [Option.GetValue, hov, hod, ErrorOptionMissing]
  · simp [Argument.GetValue, hav, had, ErrorArgumentMissing]
  · simp [Option.GetValue, ho1]
  · simp [Argument.GetValue, ha1]

/-- C5 at the zero-valued records and at the records after `SetValue("x")`. -/
theorem C5_missing_error_witness :
    ({} : Option).GetValue.1 = ("", error.New "the option was not set") ∧
    ({} : Argument).GetValue.1 = ("", error.New "argument not set") ∧
    (({} : Option).SetValue "x").GetValue.1 = ((({} : Option).SetValue "x").value, error.nil) ∧
    (({} : Argument).SetValue "x").GetValue.1
      = ((({} : Argument).SetValue "x").value, error.nil) :=
  C5_missing_error {} (({} : Option).SetValue "x") {} (({} : Argument).SetValue "x")
    rfl rfl rfl rfl rfl rfl

/-- C6: in a command set where the Flag `f`, registered under `kf`, is the only
parameter with a prefix `p` and a name `n` such that `p + n = t`, and for
tokens (not yet marked) that contain `t`, whatever stands before or after it:
after `MatchCommandLine` the flag under `kf` has `GetFlag() = true` and its
value marked set, and every token that no registered parameter spells is
still unmatched. -/
theorem C6_flag_true_after_match (caseTable : Char → Char) (order : Nat → List String)
    (cs : CommandSet) (args : List matchItem) (kf t : String) (f : Flag)
    (horder : ∀ i, cs.Parameters.IsRangeOrder (order i))
    (hargs : ∀ a ∈ args, a.Matched = false)
    (hf : cs.Parameters.lookup kf = some (.flag f))
    (hspell : ∃ n ∈ f.GetName, ∃ p ∈ f.GetPrefix, t = p ++ n)
    (honly : ∀ k pv, cs.Parameters.lookup k = some pv →
      (∃ n ∈ pv.GetName, ∃ p ∈ pv.GetPrefix, t = p ++ n) → k = kf)
    (ht : t ∈ args.map (fun a => a.Value)) :
    ∃ out cs1 f1,
      cs.MatchCommandLine caseTable order args = .ok (false, out, cs1) ∧
      cs1.Parameters.lookup kf = some (.flag f1) ∧
      f1.GetFlag = true ∧ f1.valueSet = true ∧
      out.map (fun o => o.Value) = args.map (fun a => a.Value) ∧
      ∀ o ∈ out,
        (¬ ∃ k pv n p, cs.Parameters.lookup k = some pv ∧ n ∈ pv.GetName ∧
          p ∈ pv.GetPrefix ∧ o.Value = p ++ n) → o.Matched = false := by
  obtain ⟨out, m1, e, r⟩ := MatchCommandLine_run caseTable order cs args
  obtain ⟨f1, h1, h2, h3⟩ := run_flag_set r kf t f horder hf hspell honly (Or.inl ht)
  have h := run_matched r horder
  refine ⟨out, _, f1, e, h1, h2, h3, forall₂_map_value h (fun _ _ q => q.2.1), ?_⟩
  intro o ho hno
  obtain ⟨a, ha, -, hv, hm⟩ := forall₂_mem_right h ho
  cases hb : o.Matched with
  | false => rfl
  | true =>
    exfalso
    rcases hm.1 hb with hx | ⟨k, pv, hk, n, hn, p, hp, e⟩
    · rw [hargs a ha] at hx; cases hx
    · exact hno ⟨k, pv, n, p, hk, hn, hp, hv.trans e⟩

/-- C6 at the scenario of the spec: the flag `verbose` with the name `v` and
the prefix `-`, and the tokens `-v file.txt`. -/
theorem C6_flag_true_after_match_witness :
    ∃ out cs1 f1,
      exampleVerboseSet.MatchCommandLine id (fun _ => ["verbose"]) exampleVerboseArgs
        = .ok (false, out, cs1) ∧
      cs1.Parameters.lookup "verbose" = some (.flag f1) ∧
      f1.GetFlag = true ∧ f1.valueSet = true ∧
      out.map (fun o => o.Value) = exampleVerboseArgs.map (fun a => a.Value) ∧
      ∀ o ∈ out,
        (¬ ∃ k pv n p, exampleVerboseSet.Parameters.lookup k = some pv ∧ n ∈ pv.GetName ∧
          p ∈ pv.GetPrefix ∧ o.Value = p ++ n) → o.Matched = false :=
  C6_flag_true_after_match id (fun _ => ["verbose"]) exampleVerboseSet exampleVerboseArgs
    "verbose" "-v" { Key := "verbose", Name := ["v"], Prefix := ["-"] }
    (fun _ => List.Perm.refl _) (by decide) (by decide)
    ⟨"v", by decide, "-", by decide, by decide⟩
    (fun k pv hk _ => by
      by_contra hne
      have hnone : exampleVerboseSet.Parameters.lookup k = none := by
        show AList.lookup k (AList.insert "verbose" _ ∅) = none
        rw [AList.lookup_insert_ne hne]
        rfl
      rw [hnone] at hk
      cases hk)
    (by decide)

/-- C7: for every Flag, Option and Argument and every list of names,
`SetName(names)` returns the error `the parameter name length must be greater
than zero` if and only if some entry is empty after trimming white space (that
is, consists of white space only); then the record is left as it was;
otherwise the error is nil and the record differs from the old one in its name
list alone, which is `names`. -/
theorem C7_SetName_rejects_blank_names (f : Flag) (o : Option) (a : Argument)
    (names : List String) :
    ((∃ v ∈ names, TrimSpace v = "") ↔ ∃ v ∈ names, ∀ c ∈ v.data, isSpace c = true) ∧
    ((f.SetName names).1 = error.New "the parameter name length must be greater than zero"
      ↔ ∃ v ∈ names, TrimSpace v = "") ∧
    ((o.SetName names).1 = error.New "the parameter name length must be greater than zero"
      ↔ ∃ v ∈ names, TrimSpace v = "") ∧
    ((a.SetName names).1 = error.New "the parameter name length must be greater than zero"
      ↔ ∃ v ∈ names, TrimSpace v = "") ∧
    ((f.SetName names).1 ≠ error.nil ∧ (f.SetName names).2 = f ∨
      (f.SetName names).1 = error.nil ∧ (f.SetName names).2 = { f with Name := names } ∧
        (f.SetName names).2.Name = names) ∧
    ((o.SetName names).1 ≠ error.nil ∧ (o.SetName names).2 = o ∨
      (o.SetName names).1 = error.nil ∧ (o.SetName names).2 = { o with Name := names } ∧
        (o.SetName names).2.Name = names) ∧
    ((a.SetName names).1 ≠ error.nil ∧ (a.SetName names).2 = a ∨
      (a.SetName names).1 = error.nil ∧ (a.SetName names).2 = { a with Name := names } ∧
        (a.SetName names).2.Name = names) := by
  have hiff := hasEmptyName_iff names
  refine ⟨?_, ?_, ?_, ?_, ?_, ?_, ?_⟩
  · simp only [TrimSpace_eq_empty_iff]
  all_goals
    by_cases h : hasEmptyName names = true
    · have hex := hiff.1 h
      simp [Flag.SetName, Option.SetName, Argument.SetName, h, hex, ErrorNameLengthZero]
    · have hex : ¬ ∃ v ∈ names, TrimSpace v = "" := fun hx => h (hiff.2 hx)
      simp only [Bool.not_eq_true] at h
      simp [Flag.SetName, Option.SetName, Argument.SetName, h, hex]

/-- C8: given that the case tables of the Go runtime map no rune outside ASCII
to one of the characters `1 t r u e y s`, `truthyString(s)` is true if and only
if `s` equals, ignoring letter case, one of `1`, `true`, `yes` (no string
equals two of them), that is, if and only if `s` is one of the twenty-five
spellings listed in `truthySpellings`; the empty string is falsy, and so is
every string `w` that begins or ends with a white-space character. -/
theorem C8_truthyString_ignores_case (caseTable : Char → Char) (s w : String) (c : Char)
    (htable : ∀ r : Char, 0x7F < r.toNat → caseTable r ∉ ['1', 't', 'r', 'u', 'e', 'y', 's'])
    (hc : isSpace c = true)
    (hw : w.data.head? = some c ∨ w.data.getLast? = some c) :
    (truthyString caseTable s = true ↔
      (EqualsIgnoringCase s "1" ∨ EqualsIgnoringCase s "true" ∨ EqualsIgnoringCase s "yes")) ∧
    ¬ (EqualsIgnoringCase s "1" ∧ EqualsIgnoringCase s "true") ∧
    ¬ (EqualsIgnoringCase s "1" ∧ EqualsIgnoringCase s "yes") ∧
    ¬ (EqualsIgnoringCase s "true" ∧ EqualsIgnoringCase s "yes") ∧
    (truthyString caseTable s = true ↔ s ∈ truthySpellings) ∧
    truthyString caseTable "" = false ∧
    truthyString caseTable w = false := by
  have hlen : ∀ lit : String, EqualsIgnoringCase s lit → s.data.length = lit.data.length :=
    fun lit h => List.Forall₂.length_eq h
  refine ⟨truthyString_iff caseTable htable s, ?_, ?_, ?_,
    truthyString_iff_mem caseTable htable s, ?_, ?_⟩
  · rintro ⟨h1, h2⟩
    have e1 := hlen _ h1
    have e2 := hlen _ h2
    rw [e1] at e2
    revert e2
    decide
  · rintro ⟨h1, h2⟩
    have e1 := hlen _ h1
    have e2 := hlen _ h2
    rw [e1] at e2
    revert e2
    decide
  · rintro ⟨h1, h2⟩
    have e1 := hlen _ h1
    have e2 := hlen _ h2
    rw [e1] at e2
    revert e2
    decide
  · rfl
  · cases hb : truthyString caseTable w with
    | false => rfl
    | true =>
      exfalso
      have hmem := (truthyString_iff_mem caseTable htable w).1 hb
      have hcw : c ∈ w.data := by
        rcases hw with h | h
        · exact List.mem_of_mem_head? h
        · exact List.mem_of_mem_getLast? h
      have := truthySpellings_no_space w hmem c hcw
      rw [hc] at this
      cases this

/-- C8 at a case table with the two ASCII-valued entries of Unicode, the
string `Yes` and the string ` true` that begins with a space. -/
theorem C8_truthyString_ignores_case_witness :
    (truthyString exampleCaseTable "Yes" = true ↔
      (EqualsIgnoringCase "Yes" "1" ∨ EqualsIgnoringCase "Yes" "true" ∨
        EqualsIgnoringCase "Yes" "yes")) ∧
    ¬ (EqualsIgnoringCase "Yes" "1" ∧ EqualsIgnoringCase "Yes" "true") ∧
    ¬ (EqualsIgnoringCase "Yes" "1" ∧ EqualsIgnoringCase "Yes" "yes") ∧
    ¬ (EqualsIgnoringCase "Yes" "true" ∧ EqualsIgnoringCase "Yes" "yes") ∧
    (truthyString exampleCaseTable "Yes" = true ↔ "Yes" ∈ truthySpellings) ∧
    truthyString exampleCaseTable "" = false ∧
    truthyString exampleCaseTable " true" = false :=
  C8_truthyString_ignores_case exampleCaseTable "Yes" " true" ' '
    (fun r hr hmem => by
      unfold exampleCaseTable at hmem
      split at hmem
      · revert hmem; decide
      · split at hmem
        · revert hmem; decide
        · have := truthyLetters_ascii r hmem
          omega)
    (by decide) (Or.inl (by decide))

/-- C9: for every Flag in any prior state and every string `s`, after
`SetValue(s)` the value is marked set and `GetFlag()` is the truthy-string
evaluation of `s`; after `SetValue` of `true`, `1`, `Yes` it is true and after
`SetValue` of the empty string, `0`, `no` it is false, whatever it was before. -/
theorem C9_Flag_SetValue_truthy (caseTable : Char → Char) (f : Flag) (s : String) :
    (f.SetValue caseTable s).valueSet = true ∧
    (f.SetValue caseTable s).GetFlag = truthyString caseTable s ∧
    (f.SetValue caseTable "true").GetFlag = true ∧
    (f.SetValue caseTable "1").GetFlag = true ∧
    (f.SetValue caseTable "Yes").GetFlag = true ∧
    (f.SetValue caseTable "").GetFlag = false ∧
    (f.SetValue caseTable "0").GetFlag = false ∧
    (f.SetValue caseTable "no").GetFlag = false ∧
    (({ f with flagValue := true } : Flag).SetValue caseTable "no").GetFlag = false := by
  refine ⟨rfl, rfl, ?_, ?_, ?_, ?_, ?_, ?_, ?_⟩ <;> rfl

/-- C10, as stated, fails: at an option and an argument whose environment
default `42` is marked present and whose value was not set, `GetValue()`
returns `42` with no error, and `42` parses to 42, but `GetInt()` and
`GetUint()` parse the stored value, the empty string, and return a syntax
error. -/
theorem C10_GetInt_skips_default_resolution :
    exampleEnvOption.GetValue.1 = ("42", error.nil) ∧
    Atoi 64 "42" = (42, error.nil) ∧
    ParseUint 64 "42" = (42, error.nil) ∧
    exampleEnvOption.GetInt 64 = (0, error.NumError "Atoi" "" "invalid syntax") ∧
    exampleEnvOption.GetUint 64 = (0, error.NumError "ParseUint" "" "invalid syntax") ∧
    exampleEnvArgument.GetValue.1 = ("42", error.nil) ∧
    exampleEnvArgument.GetInt 64 = (0, error.NumError "Atoi" "" "invalid syntax") ∧
    exampleEnvArgument.GetUint 64 = (0, error.NumError "ParseUint" "" "invalid syntax") := by
  decide

/-- C10, amended: for an Option `o` and an Argument `a` in a state where a value
was set or no default source is marked present, when `GetValue()` succeeds with
`s`, `GetInt()` is the integer parse of `s` and `GetUint()` its unsigned parse;
this covers every state reached from a zero-valued record by a sequence of the
interface operations; and in every state, after a `GetValue()` that succeeds
with `r`, `GetInt()` and `GetUint()` parse `r`. -/
theorem C10_GetInt_parses_GetValue_result (caseTable : Char → Char) (intSize : Nat)
    (ops : List Operation) (o : Option) (a : Argument) (s t : String)
    (ho : o.valueSet = true ∨ o.defaultSet = false)
    (hs : o.GetValue.1 = (s, error.nil))
    (ha : a.valueSet = true ∨ a.defaultSet = false)
    (ht : a.GetValue.1 = (t, error.nil)) :
    o.GetInt intSize = Atoi intSize s ∧ o.GetUint intSize = ParseUint intSize s ∧
    a.GetInt intSize = Atoi intSize t ∧ a.GetUint intSize = ParseUint intSize t ∧
    (∀ r, (({} : Option).run caseTable ops).GetValue.1 = (r, error.nil) →
      (({} : Option).run caseTable ops).GetInt intSize = Atoi intSize r ∧
      (({} : Option).run caseTable ops).GetUint intSize = ParseUint intSize r) ∧
    (∀ r, (({} : Argument).run caseTable ops).GetValue.1 = (r, error.nil) →
      (({} : Argument).run caseTable ops).GetInt intSize = Atoi intSize r ∧
      (({} : Argument).run caseTable ops).GetUint intSize = ParseUint intSize r) ∧
    (∀ (o1 : Option) (r : String), o1.GetValue.1 = (r, error.nil) →
      o1.GetValue.2.GetInt intSize = Atoi intSize r ∧
      o1.GetValue.2.GetUint intSize = ParseUint intSize r) ∧
    (∀ (a1 : Argument) (r : String), a1.GetValue.1 = (r, error.nil) →
      a1.GetValue.2.GetInt intSize = Atoi intSize r ∧
      a1.GetValue.2.GetUint intSize = ParseUint intSize r) := by
  have hov := option_value_of_GetValue o s ho hs
  have hav := argument_value_of_GetValue a t ha ht
  refine ⟨?_, ?_, ?_, ?_, ?_, ?_, ?_, ?_⟩
  · unfold Option.GetInt; rw [hov]
  · unfold Option.GetUint; rw [hov]
  · unfold Argument.GetInt; rw [hav]
  · unfold Argument.GetUint; rw [hav]
  · intro r hr
    have hd := (option_run_spec caseTable ops {} rfl).1
    have hv := option_value_of_GetValue _ r (Or.inr hd) hr
    unfold Option.GetInt Option.GetUint
    rw [hv]
    exact ⟨rfl, rfl⟩
  · intro r hr
    have hd := (argument_run_spec caseTable ops {} rfl).1
    have hv := argument_value_of_GetValue _ r (Or.inr hd) hr
    unfold Argument.GetInt Argument.GetUint
    rw [hv]
    exact ⟨rfl, rfl⟩
  · intro o1 r hr
    have hv := option_value_after_GetValue o1 r hr
    unfold Option.GetInt Option.GetUint
    rw [hv]
    exact ⟨rfl, rfl⟩
  · intro a1 r hr
    have hv := argument_value_after_GetValue a1 r hr
    unfold Argument.GetInt Argument.GetUint
    rw [hv]
    exact ⟨rfl, rfl⟩

/-- C10, amended, at an option and an argument after `SetValue("42")`, with a
64-bit `int` and the calls `SetDefault("7")`, `SetValue("42")`. -/
theorem C10_GetInt_parses_GetValue_result_witness :
    (({} : Option).SetValue "42").GetInt 64 = Atoi 64 "42" ∧
    (({} : Option).SetValue "42").GetUint 64 = ParseUint 64 "42" ∧
    (({} : Argument).SetValue "42").GetInt 64 = Atoi 64 "42" ∧
    (({} : Argument).SetValue "42").GetUint 64 = ParseUint 64 "42" ∧
    (∀ r, (({} : Option).run id [.SetDefault "7", .SetValue "42"]).GetValue.1
        = (r, error.nil) →
      (({} : Option).run id [.SetDefault "7", .SetValue "42"]).GetInt 64 = Atoi 64 r ∧
      (({} : Option).run id [.SetDefault "7", .SetValue "42"]).GetUint 64
        = ParseUint 64 r) ∧
    (∀ r, (({} : Argument).run id [.SetDefault "7", .SetValue "42"]).GetValue.1
        = (r, error.nil) →
      (({} : Argument).run id [.SetDefault "7", .SetValue "42"]).GetInt 64 = Atoi 64 r ∧
      (({} : Argument).run id [.SetDefault "7", .SetValue "42"]).GetUint 64
        = ParseUint 64 r) ∧
    (∀ (o1 : Option) (r : String), o1.GetValue.1 = (r, error.nil) →
      o1.GetValue.2.GetInt 64 = Atoi 64 r ∧
      o1.GetValue.2.GetUint 64 = ParseUint 64 r) ∧
    (∀ (a1 : Argument) (r : String), a1.GetValue.1 = (r, error.nil) →
      a1.GetValue.2.GetInt 64 = Atoi 64 r ∧
      a1.GetValue.2.GetUint 64 = ParseUint 64 r) :=
  C10_GetInt_parses_GetValue_result id 64 [.SetDefault "7", .SetValue "42"]
    (({} : Option).SetValue "42") (({} : Argument).SetValue "42") "42" "42"
    (Or.inl rfl) rfl (Or.inl rfl) rfl

/-- C11: `SetFlag()` on a Flag in any state returns, and afterwards the boolean
state is true, the value is marked set and `GetFlag()` is true; `SetFlag()` on
every Option and every Argument panics, directly and through the interface. -/
theorem C11_SetFlag_only_on_flags (f : Flag) (o : Option) (a : Argument) :
    (CommandLineParameter.flag f).SetFlag = .ok (.flag f.SetFlag) ∧
    f.SetFlag.flagValue = true ∧ f.SetFlag.valueSet = true ∧ f.SetFlag.GetFlag = true ∧
    o.SetFlag = .error "SetFlag use not appropriate for this parameter type" ∧
    a.SetFlag = .error "SetFlag use not appropriate for this parameter type" ∧
    (CommandLineParameter.option o).SetFlag
      = .error "SetFlag use not appropriate for this parameter type" ∧
    (CommandLineParameter.argument a).SetFlag
      = .error "SetFlag use not appropriate for this parameter type" :=
  ⟨rfl, rfl, rfl, rfl, rfl, rfl, rfl, rfl⟩

/-- C12: for every command set (any mix of flags, options and arguments, any
names and prefixes), every token sequence and every visiting order,
`MatchCommandLine` returns and does not panic: on a match the type switch calls
`SetFlag` on a Flag only, and `SetValue` on an Option or an Argument, whose own
`SetFlag` would panic. -/
theorem C12_MatchCommandLine_never_panics (caseTable : Char → Char)
    (order : Nat → List String) (cs : CommandSet) (args : List matchItem) :
    (∃ out cs1, cs.MatchCommandLine caseTable order args = .ok (false, out, cs1)) ∧
    (∀ (tok : String) (f : Flag),
      dispatchMatch caseTable tok (.flag f) = .ok (.flag f.SetFlag)) ∧
    (∀ (tok : String) (o : Option),
      dispatchMatch caseTable tok (.option o) = .ok (.option (o.SetValue tok)) ∧
      (CommandLineParameter.option o).SetFlag
        = .error "SetFlag use not appropriate for this parameter type") ∧
    (∀ (tok : String) (a : Argument),
      dispatchMatch caseTable tok (.argument a) = .ok (.argument (a.SetValue tok)) ∧
      (CommandLineParameter.argument a).SetFlag
        = .error "SetFlag use not appropriate for this parameter type") := by
  obtain ⟨out, m1, e, -⟩ := MatchCommandLine_run caseTable order cs args
  exact ⟨⟨out, _, e⟩, fun _ _ => rfl, fun _ _ => ⟨rfl, rfl⟩, fun _ _ => ⟨rfl, rfl⟩⟩

/-- C13, the code at two successive calls of `New` in a fresh process, with a
flag registered on the first instance in between: the package variable
`cliopatraInstance` is still nil after each call, so the second call allocates
and returns another instance (address 1, not 0), whose parameter map is empty;
the flag is on the first instance only. -/
theorem C13_New_does_not_store_the_instance :
    exampleFirstNew.1 = (0, error.nil) ∧
    exampleFirstNew.2.cliopatraInstance = none ∧
    exampleFirstNew.2.AddFlag 0 "verbose" ["v"] none "be verbose" = .ok exampleRegistered ∧
    exampleRegistered.parameter 0 "verbose"
      = some (.flag { help := "be verbose", Name := ["v"], Prefix := ["-"] }) ∧
    exampleSecondNew.1 = (1, error.nil) ∧
    exampleSecondNew.2.cliopatraInstance = none ∧
    exampleSecondNew.2.parameter 1 "verbose" = none ∧
    exampleSecondNew.2.parameter 0 "verbose"
      = some (.flag { help := "be verbose", Name := ["v"], Prefix := ["-"] }) ∧
    (∀ cs1 cs2 : CommandSet, (New cs1 {}).1.1 = 0 ∧ (New cs2 (New cs1 {}).2).1.1 = 1) := by
  refine ⟨by decide, by decide, rfl, by decide, by decide, by decide, by decide, by decide, ?_⟩
  intro cs1 cs2
  exact ⟨rfl, rfl⟩

/-- C14, as stated, fails: on a command set whose parameter map was never
allocated (the zero value `CommandSet{}`), `AddFlag` panics on the map write
and registers nothing. -/
theorem C14_AddFlag_panics_on_nil_map :
    ({} : CommandSet).AddFlag "verbose" ["v"] none "be verbose"
      = .error "assignment to entry in nil map" := rfl

/-- C14, amended: for every command set whose parameter map is allocated (as
`New` leaves it), every key, name list, optional prefix list and help text,
`AddFlag` returns; afterwards the key holds a Flag with those names and that
help, whose `GetFlag()` is false and whose prefixes are the caller's list when
it is given and non-empty and the command set's prefixes otherwise (the record
being zero elsewhere); what the key held before is replaced, every other key
holds what it held, and the other fields of the command set are unchanged. -/
theorem C14_AddFlag_registers_flag (cs : CommandSet) (key : String) (names : List String)
    (pfx : Maybe (List String)) (help : String)
    (hmap : cs.Parameters ≠ GoMap.nil) :
    ∃ cs1 f,
      cs.AddFlag key names pfx help = .ok cs1 ∧
      cs1.Parameters.lookup key = some (.flag f) ∧
      f.GetName = names ∧ f.GetHelp = help ∧ f.GetFlag = false ∧
      (∀ l, pfx = some l → l ≠ [] → f.GetPrefix = l) ∧
      (pfx = none ∨ pfx = some [] → f.GetPrefix = cs.Prefix) ∧
      f = { help := help, Name := names, Prefix := f.GetPrefix } ∧
      (∀ k, k ≠ key → cs1.Parameters.lookup k = cs.Parameters.lookup k) ∧
      { cs1 with Parameters := cs.Parameters } = cs := by
  obtain ⟨a1, a2, a3, a4, a5, a6, a7, a8, m, a10, a11, a12⟩ := cs
  cases m with
  | nil => exact absurd rfl hmap
  | table t =>
    refine ⟨_, _, rfl, GoMap.lookup_store_self t key _, rfl, rfl, rfl, ?_, ?_, rfl, ?_, rfl⟩
    · rintro l rfl hl
      cases l with
      | nil => exact absurd rfl hl
      | cons x xs => simp [Flag.GetPrefix]
    · rintro (rfl | rfl) <;> rfl
    · intro k hk
      exact GoMap.lookup_store_ne t hk _

/-- C14, amended, at the command set that `New` leaves, the key `verbose`, the
name `v`, no prefix list and a help text. -/
theorem C14_AddFlag_registers_flag_witness :
    ∃ cs1 f,
      exampleEmptySet.AddFlag "verbose" ["v"] none "be verbose" = .ok cs1 ∧
      cs1.Parameters.lookup "verbose" = some (.flag f) ∧
      f.GetName = ["v"] ∧ f.GetHelp = "be verbose" ∧ f.GetFlag = false ∧
      (∀ l, (none : Maybe (List String)) = some l → l ≠ [] → f.GetPrefix = l) ∧
      ((none : Maybe (List String)) = none ∨ (none : Maybe (List String)) = some [] →
        f.GetPrefix = exampleEmptySet.Prefix) ∧
      f = { help := "be verbose", Name := ["v"], Prefix := f.GetPrefix } ∧
      (∀ k, k ≠ "verbose" → cs1.Parameters.lookup k = exampleEmptySet.Parameters.lookup k) ∧
      { cs1 with Parameters := exampleEmptySet.Parameters } = exampleEmptySet :=
  C14_AddFlag_registers_flag exampleEmptySet "verbose" ["v"] none "be verbose"
    (fun h => by cases h)

/-- C15, the code at a list that shares its backing array with the prefix
slice: with `all := []string{"-", "--", "+"}`, after `SetPrefix(all[:2], false)`
the prefixes are `-`, `--`; `SetPrefix(all[1:3], true)` then appends `--` in
place over `+` and reads the overwritten element next, so the prefixes are
`-`, `--`, `--`, `--` and `+`, an entry of the list, is not among them.  For a
list that shares no memory with the prefixes the result is the old prefixes
followed by the list, and `SetPrefix(L, false)` always leaves `L`. -/
theorem C15_SetPrefix_loses_an_aliased_entry :
    exampleSharedFlag.GetPrefix = ["-", "--"] ∧
    (exampleSharedFlag.SetPrefix ["--", "+"] true exampleSharedLayout).GetPrefix
      = ["-", "--", "--", "--"] ∧
    "+" ∉ (exampleSharedFlag.SetPrefix ["--", "+"] true exampleSharedLayout).GetPrefix ∧
    (exampleSharedOption.SetPrefix ["--", "+"] true exampleSharedLayout).GetPrefix
      = ["-", "--", "--", "--"] ∧
    (exampleSharedArgument.SetPrefix ["--", "+"] true exampleSharedLayout).GetPrefix
      = ["-", "--", "--", "--"] ∧
    (∀ (f : Flag) (L : List String) (room : Nat),
      (f.SetPrefix L true { room := room, shift := none }).GetPrefix = f.GetPrefix ++ L) ∧
    (∀ (o : Option) (L : List String) (room : Nat),
      (o.SetPrefix L true { room := room, shift := none }).GetPrefix = o.GetPrefix ++ L) ∧
    (∀ (a : Argument) (L : List String) (room : Nat),
      (a.SetPrefix L true { room := room, shift := none }).GetPrefix = a.GetPrefix ++ L) ∧
    (∀ (f : Flag) (o : Option) (a : Argument) (L : List String) (layout : SliceLayout),
      (f.SetPrefix L false layout).GetPrefix = L ∧
      (o.SetPrefix L false layout).GetPrefix = L ∧
      (a.SetPrefix L false layout).GetPrefix = L) := by
  refine ⟨by decide, by decide, by decide, by decide, by decide, ?_, ?_, ?_, ?_⟩
  · intro f L room
    exact appendRange_no_overlap none (Or.inl rfl) L.length 0 room L f.Prefix (by simp)
  · intro o L room
    exact appendRange_no_overlap none (Or.inl rfl) L.length 0 room L o.Prefix (by simp)
  · intro a L room
    exact appendRange_no_overlap none (Or.inl rfl) L.length 0 room L a.Prefix (by simp)
  · intro f o a L layout
    exact ⟨rfl, rfl, rfl⟩

/-- C16: for every Flag in every state, `GetValue()` returns `true` when
`GetFlag()` is true and `false` otherwise, `GetInt()` and `GetUint()` return 1
when `GetFlag()` is true and 0 otherwise, each with a nil error; the results
are the same whatever the environment default, the config default, the mark of
the default sources and `configPreferred` are. -/
theorem C16_Flag_getters_follow_the_flag (f : Flag) (env cfg : String) (set pref : Bool) :
    f.GetValue = (if f.GetFlag then "true" else "false", error.nil) ∧
    f.GetInt = (if f.GetFlag then 1 else 0, error.nil) ∧
    f.GetUint = (if f.GetFlag then 1 else 0, error.nil) ∧
    ({ f with envDefault := env, configDefault := cfg, defaultSet := set,
              configPreferred := pref } : Flag).GetValue = f.GetValue ∧
    ({ f with envDefault := env, configDefault := cfg, defaultSet := set,
              configPreferred := pref } : Flag).GetInt = f.GetInt ∧
    ({ f with envDefault := env, configDefault := cfg, defaultSet := set,
              configPreferred := pref } : Flag).GetUint = f.GetUint ∧
    ({ f with envDefault := env, configDefault := cfg, defaultSet := set,
              configPreferred := pref } : Flag).GetFlag = f.GetFlag := by
  refine ⟨?_, ?_, ?_, rfl, rfl, rfl, rfl⟩
  · unfold Flag.GetValue Flag.GetFlag
    cases f.flagValue <;> rfl
  · unfold Flag.GetInt Flag.GetFlag
    cases f.flagValue <;> rfl
  · unfold Flag.GetUint Flag.GetFlag
    cases f.flagValue <;> rfl

/-- C17, the code after `New` and one `AddFlag`: the registered record has an
empty `Key` (the key `verbose` is used for the map only); a name that is blank
after trimming is registered as it is, though `SetName` refuses it; and the
empty key is accepted, though `SetKey` refuses it. -/
theorem C17_AddFlag_breaks_the_record_invariant :
    exampleRegistered.parameter 0 "verbose"
      = some (.flag { help := "be verbose", Name := ["v"], Prefix := ["-"] }) ∧
    (exampleRegistered.parameter 0 "verbose").map (fun pv => pv.toParameter.Key) = some "" ∧
    (exampleBlankName.parameter 0 "blank").map (fun pv => pv.toParameter.Name) = some [" "] ∧
    TrimSpace " " = "" ∧
    (({} : Flag).SetName [" "]).1
      = error.New "the parameter name length must be greater than zero" ∧
    (exampleEmptyKey.parameter 0 "").map (fun pv => pv.toParameter.Name) = some ["v"] ∧
    (({} : Flag).SetKey "").1 = error.New "the key length must be greater than zero" := by
  decide

/-- C18: in a command set where the Option `o`, registered under `ko`, is the
only parameter that spells a token of the sequence, and `tok` is the last token
that is one of its prefix+name combinations: after `MatchCommandLine` the
option under `ko` has its value marked set and `GetValue()` returns the text of
`tok` itself, with no error. -/
theorem C18_option_value_is_matched_token (caseTable : Char → Char)
    (order : Nat → List String) (cs : CommandSet) (args : List matchItem)
    (ko tok : String) (o : Option) (pre post : List String)
    (horder : ∀ i, cs.Parameters.IsRangeOrder (order i))
    (ho : cs.Parameters.lookup ko = some (.option o))
    (honly : ∀ a ∈ args, ∀ k pv, cs.Parameters.lookup k = some pv →
      (∃ n ∈ pv.GetName, ∃ p ∈ pv.GetPrefix, a.Value = p ++ n) → k = ko)
    (hsplit : args.map (fun a => a.Value) = pre ++ tok :: post)
    (htok : ∃ n ∈ o.GetName, ∃ p ∈ o.GetPrefix, tok = p ++ n)
    (hpost : ∀ t ∈ post, ¬ ∃ n ∈ o.GetName, ∃ p ∈ o.GetPrefix, t = p ++ n) :
    ∃ out cs1 o1,
      cs.MatchCommandLine caseTable order args = .ok (false, out, cs1) ∧
      cs1.Parameters.lookup ko = some (.option o1) ∧
      o1.valueSet = true ∧ o1.value = tok ∧
      o1.GetValue.1 = (tok, error.nil) := by
  obtain ⟨out, m1, e, r⟩ := MatchCommandLine_run caseTable order cs args
  have h := run_only_option r ko o horder ho honly
  rw [hsplit] at h
  have h1 : matchNames tok o.GetPrefix o.GetName = true :=
    (matchNames_iff tok o.GetPrefix o.GetName).2 htok
  have h2 : ∀ t ∈ post, matchNames t o.GetPrefix o.GetName = false := by
    intro t ht
    cases hb : matchNames t o.GetPrefix o.GetName with
    | false => rfl
    | true => exact absurd ((matchNames_iff t o.GetPrefix o.GetName).1 hb) (hpost t ht)
  obtain ⟨hv, hs⟩ := scanOption_last o pre post tok h1 h2
  refine ⟨out, _, _, e, h, hs, hv, ?_⟩
  simp [Option.GetValue, hs, hv]

/-- C18 at the option `out` with the names `o`, `output` and the prefixes `-`,
`--`, and the tokens `--output file.txt -o`: the value is `-o`. -/
theorem C18_option_value_is_matched_token_witness :
    ∃ out cs1 o1,
      exampleOptionSet.MatchCommandLine id (fun _ => ["out"])
        [⟨1, false, "--output"⟩, ⟨2, false, "file.txt"⟩, ⟨3, false, "-o"⟩]
        = .ok (false, out, cs1) ∧
      cs1.Parameters.lookup "out" = some (.option o1) ∧
      o1.valueSet = true ∧ o1.value = "-o" ∧
      o1.GetValue.1 = ("-o", error.nil) :=
  C18_option_value_is_matched_token id (fun _ => ["out"]) exampleOptionSet
    [⟨1, false, "--output"⟩, ⟨2, false, "file.txt"⟩, ⟨3, false, "-o"⟩]
    "out" "-o" exampleOutOption ["--output", "file.txt"] []
    (fun _ => List.Perm.refl _) (by decide)
    (fun a _ k pv hk _ => by
      by_contra hne
      have hnone : exampleOptionSet.Parameters.lookup k = none := by
        show AList.lookup k (AList.insert "out" _ ∅) = none
        rw [AList.lookup_insert_ne hne]
        rfl
      rw [hnone] at hk
      cases hk)
    (by decide) ⟨"o", by decide, "-", by decide, by decide⟩
    (fun t ht => by cases ht)

/-- C19: `MatchCommandLine` leaves the whole record of a parameter as it was
when none of its prefix+name combinations equals any token; it never changes
the registered keys; and when no registered parameter spells any token, the
command set and the tokens after the call are the ones before. -/
theorem C19_unmatched_parameters_unchanged (caseTable : Char → Char)
    (order : Nat → List String) (cs : CommandSet) (args : List matchItem)
    (k : String) (pv : CommandLineParameter)
    (hk : cs.Parameters.lookup k = some pv)
    (hno : ∀ a ∈ args, ¬ ∃ n ∈ pv.GetName, ∃ p ∈ pv.GetPrefix, a.Value = p ++ n) :
    ∃ out cs1,
      cs.MatchCommandLine caseTable order args = .ok (false, out, cs1) ∧
      cs1.Parameters.lookup k = some pv ∧
      cs1.Parameters.keys = cs.Parameters.keys ∧
      ((∀ a ∈ args, ¬ ∃ k1 pv1, cs.Parameters.lookup k1 = some pv1 ∧
          ∃ n ∈ pv1.GetName, ∃ p ∈ pv1.GetPrefix, a.Value = p ++ n) →
        cs1 = cs ∧ out = args) := by
  obtain ⟨out, m1, e, r⟩ := MatchCommandLine_run caseTable order cs args
  obtain ⟨hkeys, hframe⟩ := run_frame r
  refine ⟨out, _, e, hframe k pv hk hno, hkeys, ?_⟩
  intro hnone
  obtain ⟨e1, e2⟩ := run_nothing_recognized r hnone
  rw [e1]
  exact ⟨rfl, e2⟩

/-- C19 at the command set with the flag `-v` and the token `file.txt`. -/
theorem C19_unmatched_parameters_unchanged_witness :
    ∃ out cs1,
      exampleVerboseSet.MatchCommandLine id (fun _ => ["verbose"]) [⟨1, false, "file.txt"⟩]
        = .ok (false, out, cs1) ∧
      cs1.Parameters.lookup "verbose"
        = some (.flag { Key := "verbose", Name := ["v"], Prefix := ["-"] }) ∧
      cs1.Parameters.keys = exampleVerboseSet.Parameters.keys ∧
      ((∀ a ∈ ([⟨1, false, "file.txt"⟩] : List matchItem),
          ¬ ∃ k1 pv1, exampleVerboseSet.Parameters.lookup k1 = some pv1 ∧
            ∃ n ∈ pv1.GetName, ∃ p ∈ pv1.GetPrefix, a.Value = p ++ n) →
        cs1 = exampleVerboseSet ∧ out = [⟨1, false, "file.txt"⟩]) :=
  C19_unmatched_parameters_unchanged id (fun _ => ["verbose"]) exampleVerboseSet
    [⟨1, false, "file.txt"⟩] "verbose"
    (.flag { Key := "verbose", Name := ["v"], Prefix := ["-"] })
    (by decide) (by decide)

/-- C20: an Argument registered under a key of any command set is never
populated by `MatchCommandLine`: `GetName()` is empty, also after a `SetName`,
whatever names and prefixes its record holds; the scan of its names and
prefixes matches no token; and after the call the key holds the same record,
so the value and its set mark are as before. -/
theorem C20_arguments_never_populated (caseTable : Char → Char)
    (order : Nat → List String) (cs : CommandSet) (args : List matchItem)
    (k : String) (a : Argument) (names : List String)
    (hk : cs.Parameters.lookup k = some (.argument a)) :
    a.GetName = [] ∧
    (a.SetName names).2.GetName = [] ∧
    (∀ t, matchNames t (CommandLineParameter.argument a).GetPrefix
      (CommandLineParameter.argument a).GetName = false) ∧
    ∃ out cs1 a1,
      cs.MatchCommandLine caseTable order args = .ok (false, out, cs1) ∧
      cs1.Parameters.lookup k = some (.argument a1) ∧
      a1 = a ∧ a1.value = a.value ∧ a1.valueSet = a.valueSet := by
  obtain ⟨out, m1, e, r⟩ := MatchCommandLine_run caseTable order cs args
  have hns : ∀ t, ¬ (CommandLineParameter.argument a).Spells t := by
    rintro t ⟨n, hn, -⟩
    cases hn
  exact ⟨rfl, rfl, fun _ => rfl,
    out, _, a, e, (run_frame r).2 k _ hk (fun x _ => hns x.Value), rfl, rfl, rfl⟩

/-- C20 at the argument `out` whose record holds the names `o`, `output` and
the prefixes `-`, `--`, and the tokens `--output -o`. -/
theorem C20_arguments_never_populated_witness :
    exampleOutArgument.GetName = [] ∧
    (exampleOutArgument.SetName ["o", "output"]).2.GetName = [] ∧
    (∀ t, matchNames t (CommandLineParameter.argument exampleOutArgument).GetPrefix
      (CommandLineParameter.argument exampleOutArgument).GetName = false) ∧
    ∃ out cs1 a1,
      exampleArgumentSet.MatchCommandLine id (fun _ => ["out"])
        [⟨1, false, "--output"⟩, ⟨2, false, "-o"⟩] = .ok (false, out, cs1) ∧
      cs1.Parameters.lookup "out" = some (.argument a1) ∧
      a1 = exampleOutArgument ∧ a1.value = exampleOutArgument.value ∧
      a1.valueSet = exampleOutArgument.valueSet :=
  C20_arguments_never_populated id (fun _ => ["out"]) exampleArgumentSet
    [⟨1, false, "--output"⟩, ⟨2, false, "-o"⟩] "out" exampleOutArgument ["o", "output"]
    (by decide)

/-- C21: starting from a zero-valued Option (and Argument) record, after every
sequence of calls of SetDefault, SetKey, SetName, SetPrefix, SetRequired,
SetValue, GetValue, GetFlag, GetInt and GetUint no default source is marked
present and the environment and config defaults are empty; `GetValue()` then
returns a nil error if and only if some call of the sequence was a `SetValue`;
in that case it returns the argument of the most recent `SetValue` or
`SetDefault` call, and otherwise the empty string and the missing error.  So a
`SetDefault("b")` after `SetValue("a")` makes `GetValue()` return `b`, and a
`SetDefault` alone leaves it failing. -/
theorem C21_reachable_states_have_no_default_source (caseTable : Char → Char)
    (ops : List Operation) :
    (({} : Option).run caseTable ops).defaultSet = false ∧
    (({} : Option).run caseTable ops).envDefault = "" ∧
    (({} : Option).run caseTable ops).configDefault = "" ∧
    ((({} : Option).run caseTable ops).GetValue.1.2 = error.nil ↔
      ∃ s, Operation.SetValue s ∈ ops) ∧
    (((∃ s, Operation.SetValue s ∈ ops) ∧ ∃ v, lastWritten ops = some v ∧
        (({} : Option).run caseTable ops).GetValue.1 = (v, error.nil)) ∨
      ((¬ ∃ s, Operation.SetValue s ∈ ops) ∧
        (({} : Option).run caseTable ops).GetValue.1
          = ("", error.New "the option was not set"))) ∧
    (({} : Argument).run caseTable ops).defaultSet = false ∧
    (({} : Argument).run caseTable ops).envDefault = "" ∧
    (({} : Argument).run caseTable ops).configDefault = "" ∧
    ((({} : Argument).run caseTable ops).GetValue.1.2 = error.nil ↔
      ∃ s, Operation.SetValue s ∈ ops) ∧
    (((∃ s, Operation.SetValue s ∈ ops) ∧ ∃ v, lastWritten ops = some v ∧
        (({} : Argument).run caseTable ops).GetValue.1 = (v, error.nil)) ∨
      ((¬ ∃ s, Operation.SetValue s ∈ ops) ∧
        (({} : Argument).run caseTable ops).GetValue.1
          = ("", error.New "argument not set"))) ∧
    (({} : Option).run caseTable [.SetValue "a", .SetDefault "b"]).GetValue.1
      = ("b", error.nil) ∧
    (({} : Option).run caseTable [.SetDefault "b"]).GetValue.1
      = ("", error.New "the option was not set") := by
  obtain ⟨o1, o2, o3, o4, o5⟩ := option_run_spec caseTable ops {} rfl
  obtain ⟨a1, a2, a3, a4, a5⟩ := argument_run_spec caseTable ops {} rfl
  have hc := calledSetValue_iff ops
  simp only [Bool.false_or] at o4 a4
  refine ⟨o1, o2, o3, ?_, ?_, a1, a2, a3, ?_, ?_, rfl, rfl⟩
  · rw [← hc]
    cases hb : calledSetValue ops <;>
      simp [Option.GetValue, o1, o4, hb]
  · cases hb : calledSetValue ops with
    | false =>
      right
      refine ⟨fun hx => ?_, ?_⟩
      · rw [← hc, hb] at hx; cases hx
      · simp [Option.GetValue, o1, o4, hb, ErrorOptionMissing]
    | true =>
      left
      obtain ⟨v, hv⟩ := lastWritten_isSome_of_called ops hb
      refine ⟨hc.1 hb, v, hv, ?_⟩
      rw [hv] at o5
      simp [Option.GetValue, o4, hb, o5]
  · rw [← hc]
    cases hb : calledSetValue ops <;>
      simp [Argument.GetValue, a1, a4, hb]
  · cases hb : calledSetValue ops with
    | false =>
      right
      refine ⟨fun hx => ?_, ?_⟩
      · rw [← hc, hb] at hx; cases hx
      · simp [Argument.GetValue, a1, a4, hb, ErrorArgumentMissing]
    | true =>
      left
      obtain ⟨v, hv⟩ := lastWritten_isSome_of_called ops hb
      refine ⟨hc.1 hb, v, hv, ?_⟩
      rw [hv] at a5
      simp [Argument.GetValue, a4, hb, a5]

end cliopatra
